import Mathlib

set_option maxHeartbeats 1000000
set_option maxRecDepth 100000

/-!
Shallow embedding of the osrs-sim monster-drop wikitext parser
(`src/lib/osrs-api.ts`) and of the TTL/capacity-bounded monster cache
service with its inverted keyword index (`MonsterCacheService`).

Modelling conventions:
* JS strings are `List Char` (`Str`); `.length`, `.startsWith`, `.includes`,
  `.trim`, `.toLowerCase` are modelled by the list functions below
  (ASCII-faithful; the repository's data is ASCII wiki markup).
* JS `Map` (insertion-ordered, unique keys) is an association list; `set`
  replaces in place or appends, `delete` removes the key's entry,
  iteration is list order.  JS `Set` is an insertion-ordered duplicate-free
  list; `add` appends when absent.
* `Date` values are `Nat` millisecond timestamps; each public cache method
  takes the current time `now` as an explicit argument (the source reads
  `Date.now()` / `new Date()`).
* JS `Array.prototype.sort` with a consistent comparator is modelled by
  `List.insertionSort` on the corresponding relation.
* The floating-point stats fields (`cacheHitRate`, `averageSearchTime`) are
  modelled over `ℚ`; no claim depends on float rounding.
-/

abbrev Str := List Char

/-- JS `String.prototype.trim`: strip leading and trailing whitespace. -/
def strTrim (s : Str) : Str :=
  ((s.dropWhile Char.isWhitespace).reverse.dropWhile Char.isWhitespace).reverse

/-- JS `String.prototype.toLowerCase` (ASCII). -/
def strLower (s : Str) : Str := s.map Char.toLower

/-- JS `String.prototype.split` on a single-character separator: split at every
occurrence of `c`, keeping empty pieces (`"a||b" → ["a","","b"]`, `"" → [""]`). -/
def splitOnChar (c : Char) : Str → List Str
  | [] => [[]]
  | x :: xs =>
    if x = c then [] :: splitOnChar c xs
    else
      match splitOnChar c xs with
      | [] => [[x]]
      | h :: t => (x :: h) :: t

/-- JS `String.prototype.includes`: substring test. -/
def strContains : Str → Str → Bool
  | [], needle => needle.isEmpty
  | c :: t, needle => needle.isPrefixOf (c :: t) || strContains t needle

/-- Decimal rendering of a natural number (JS number-to-string interpolation). -/
def natToStr (n : Nat) : Str := (Nat.repr n).toList

/-- JS `a || d` for an optionally-present string `a`: `none` and the empty
string are falsy and fall through to the default. -/
def jsOr (v : Option Str) (d : Str) : Str :=
  match v with
  | some s => if s = [] then d else s
  | none => d

/-- JS `Map.prototype.get` on an insertion-ordered association list. -/
def mapGet (m : List (Str × α)) (k : Str) : Option α :=
  (m.find? (fun kv => kv.1 == k)).map (·.2)

/-- JS `Map.prototype.set`: replace the existing entry in place, else append. -/
def mapSet (m : List (Str × α)) (k : Str) (v : α) : List (Str × α) :=
  match m with
  | [] => [(k, v)]
  | (k0, v0) :: rest => if k0 = k then (k, v) :: rest else (k0, v0) :: mapSet rest k v

/-- JS `Map.prototype.delete`. -/
def mapDelete (m : List (Str × α)) (k : Str) : List (Str × α) :=
  m.filter (fun kv => kv.1 ≠ k)

/-- JS `Set.prototype.add` on an insertion-ordered duplicate-free list. -/
def setAdd (s : List Str) (x : Str) : List Str :=
  if x ∈ s then s else s ++ [x]

/-!
## The wikitext drop-table parser (`src/lib/osrs-api.ts`)
-/

/-- One parsed drop possibility (`OSRSDrop`). -/
structure OSRSDrop where
  name : Str
  quantity : Str
  rarity : Str
  category : Str
  imageUrl : Option Str := none
deriving DecidableEq

/-- A parsed monster payload (`OSRSMonster`). -/
structure OSRSMonster where
  title : Str
  url : Str
  extract : Option Str := none
  image : Option Str := none
  drops : List OSRSDrop := []
  combatLevel : Option Nat := none
  hitpoints : Option Nat := none
deriving DecidableEq

/-- One attempt of the JS regex `\x7b\x7bName\|([^\x7d]+)\x7d\x7d` at the start
of `s`: the literal prefix `pre` (e.g. `"\x7b\x7bDropsLine|"`), then a
non-empty run of non-`\x7d` characters (the capture), then `"\x7d\x7d"`.
Returns the capture and the remainder of the input after the match. -/
def templateStep (pre : Str) (s : Str) : Option (Str × Str) :=
  if pre.isPrefixOf s
      ∧ (s.drop pre.length).takeWhile (fun ch => ch ≠ '\x7d') ≠ []
      ∧ ('\x7d' :: '\x7d' :: []).isPrefixOf
          ((s.drop pre.length).drop
            (((s.drop pre.length).takeWhile (fun ch => ch ≠ '\x7d')).length)) then
    some ((s.drop pre.length).takeWhile (fun ch => ch ≠ '\x7d'),
      (((s.drop pre.length).drop
        (((s.drop pre.length).takeWhile (fun ch => ch ≠ '\x7d')).length)).drop 2))
  else none

theorem templateStep_shrink {pre s run rem : Str}
    (h : templateStep pre s = some (run, rem)) : rem.length + 1 ≤ s.length := by
  unfold templateStep at h
  split_ifs at h with hc
  · obtain ⟨h1, h2, h3⟩ := hc
    injection h with h
    obtain ⟨h4, h5⟩ := Prod.mk.injEq .. ▸ h
    have hrun : 1 ≤ ((s.drop pre.length).takeWhile (fun ch => ch ≠ '\x7d')).length := by
      cases hr : (s.drop pre.length).takeWhile (fun ch => ch ≠ '\x7d') with
      | nil => exact absurd hr h2
      | cons a l => simp
    have htw : ((s.drop pre.length).takeWhile (fun ch => ch ≠ '\x7d')).length
        ≤ (s.drop pre.length).length :=
      (List.takeWhile_prefix _).length_le
    have h3p : ('\x7d' :: '\x7d' :: []) <+: ((s.drop pre.length).drop
        (((s.drop pre.length).takeWhile (fun ch => ch ≠ '\x7d')).length)) := by
      simpa [← List.isPrefixOf_iff_prefix] using h3
    have h2ch : 2 ≤ ((s.drop pre.length).drop
        (((s.drop pre.length).takeWhile (fun ch => ch ≠ '\x7d')).length)).length :=
      le_trans (by simp) h3p.length_le
    subst h5
    simp only [List.length_drop] at *
    omega

/-- The scanning loop of `templateMatches`, driven by a fuel counter so that
it is structurally recursive (and hence computes by kernel reduction).  Every
step consumes at least one character of the input (`templateStep_shrink`), so
a fuel equal to the input length never runs out. -/
def templateMatchesGo (pre : Str) : Nat → Str → List Str
  | 0, _ => []
  | _, [] => []
  | fuel + 1, c :: rest =>
    match templateStep pre (c :: rest) with
    | some (run, rem) => run :: templateMatchesGo pre fuel rem
    | none => templateMatchesGo pre fuel rest

/-- All capture groups of the JS global regex `\x7b\x7bName\|([^\x7d]+)\x7d\x7d`
(`String.prototype.matchAll`): at each position try `templateStep`; on success
the capture is collected and scanning resumes after the match, otherwise
scanning advances one character. -/
def templateMatches (pre s : Str) : List Str := templateMatchesGo pre s.length s

/-- JS `Array.prototype.join` with a single-character separator. -/
def joinWith (c : Char) : List Str → Str
  | [] => []
  | [p] => p
  | p :: ps => p ++ c :: joinWith c ps

/-- `parseTemplateParams`: split the parameter string on `|`; each piece is
split on `=` (`const [key, ...valueParts] = pair.split('=')`); pieces with a
truthy (non-empty) key and at least one `=` become `key ↦ value` (both
trimmed, later `=` rejoined into the value); other pieces are stored
positionally. -/
def parseTemplateParams (paramString : Str) : List (Str × Str) :=
  ((splitOnChar '|' paramString).enum).foldl
    (fun params ip =>
      let parts := splitOnChar '=' ip.2
      let key := parts.headI
      let valueParts := parts.tail
      if key ≠ [] ∧ valueParts ≠ [] then
        mapSet params (strTrim key) (strTrim (joinWith '=' valueParts))
      else if ip.1 = 0 then
        mapSet params ("0".toList) (strTrim ip.2)
      else
        mapSet params (natToStr ip.1) (strTrim ip.2))
    []

/-- One row of the hard-coded herb table: herb name and integer weight. -/
structure HerbWeight where
  name : Str
  weight : Nat
deriving DecidableEq

/-- The fixed 13-herb table of `parseHerbDropTable`. -/
def herbTable : List HerbWeight :=
  [⟨"Grimy guam leaf".toList, 19⟩,
   ⟨"Grimy marrentill".toList, 15⟩,
   ⟨"Grimy tarromin".toList, 12⟩,
   ⟨"Grimy harralander".toList, 9⟩,
   ⟨"Grimy ranarr weed".toList, 6⟩,
   ⟨"Grimy toadflax".toList, 4⟩,
   ⟨"Grimy irit leaf".toList, 4⟩,
   ⟨"Grimy avantoe".toList, 3⟩,
   ⟨"Grimy kwuarm".toList, 2⟩,
   ⟨"Grimy snapdragon".toList, 2⟩,
   ⟨"Grimy cadantine".toList, 1⟩,
   ⟨"Grimy lantadyme".toList, 1⟩,
   ⟨"Grimy dwarf weed".toList, 1⟩]

/-- `herbs.reduce((sum, herb) => sum + herb.weight, 0)`. -/
def herbTotalWeight : Nat := herbTable.foldl (fun acc h => acc + h.weight) 0

/-- `parseHerbDropTable`: expand the fixed herb table against a base rate. -/
def parseHerbDropTable (baseRate : Str) (category : Str) : List OSRSDrop :=
  herbTable.map (fun h =>
    { name := h.name
      quantity := "1-3".toList
      rarity := baseRate ++ " (".toList ++ natToStr h.weight ++ "/".toList
        ++ natToStr herbTotalWeight ++ ")".toList
      category := category })

/-- One row of the hard-coded rare-seed table. -/
structure SeedSpec where
  name : Str
  rarity : Str
  quantity : Option Str := none
deriving DecidableEq

/-- The fixed 14-seed table of `parseRareSeedDropTable`. -/
def rareSeedTable : List SeedSpec :=
  [⟨"Toadflax seed".toList, "1/33.8".toList, none⟩,
   ⟨"Irit seed".toList, "1/49.7".toList, none⟩,
   ⟨"Belladonna seed".toList, "1/51.3".toList, none⟩,
   ⟨"Poison ivy seed".toList, "1/72.3".toList, none⟩,
   ⟨"Avantoe seed".toList, "1/72.3".toList, none⟩,
   ⟨"Cactus seed".toList, "1/75.7".toList, none⟩,
   ⟨"Potato cactus seed".toList, "1/106".toList, none⟩,
   ⟨"Kwuarm seed".toList, "1/106".toList, none⟩,
   ⟨"Snapdragon seed".toList, "1/159".toList, none⟩,
   ⟨"Cadantine seed".toList, "1/227.1".toList, none⟩,
   ⟨"Lantadyme seed".toList, "1/318".toList, none⟩,
   ⟨"Snape grass seed".toList, "1/397.5".toList, some ("3".toList)⟩,
   ⟨"Dwarf weed seed".toList, "1/530".toList, none⟩,
   ⟨"Torstol seed".toList, "1/794.9".toList, none⟩]

/-- `parseRareSeedDropTable`: expand the fixed rare-seed table. -/
def parseRareSeedDropTable (baseRate : Str) (category : Str) : List OSRSDrop :=
  rareSeedTable.map (fun s =>
    { name := s.name
      quantity := jsOr s.quantity ("1".toList)
      rarity := baseRate ++ " then ".toList ++ s.rarity
      category := category })

def dropsLinePre : Str := "\x7b\x7bDropsLine|".toList
def dropsLineCluePre : Str := "\x7b\x7bDropsLineClue|".toList
def herbDropLinesPre : Str := "\x7b\x7bHerbDropLines|".toList
def rareSeedDropLinesPre : Str := "\x7b\x7bRareSeedDropLines|".toList

/-- `params['0'] || params['1'] || 'Unknown'`. -/
def herbBaseRate (params : List (Str × Str)) : Str :=
  jsOr (mapGet params ("0".toList)) (jsOr (mapGet params ("1".toList)) ("Unknown".toList))

/-- The `DropsLine` pass over one line. -/
def simpleDropRecords (cat line : Str) : List OSRSDrop :=
  (templateMatches dropsLinePre line).foldl
    (fun acc ps =>
      let params := parseTemplateParams ps
      match mapGet params ("name".toList) with
      | some n =>
        if n = [] then acc
        else acc ++ [{ name := n
                       quantity := jsOr (mapGet params ("quantity".toList)) ("1".toList)
                       rarity := jsOr (mapGet params ("rarity".toList)) ("Unknown".toList)
                       category := cat }]
      | none => acc)
    []

/-- The `DropsLineClue` pass over one line: `category` is forced to `Tertiary`. -/
def clueDropRecords (line : Str) : List OSRSDrop :=
  (templateMatches dropsLineCluePre line).foldl
    (fun acc ps =>
      let params := parseTemplateParams ps
      acc ++ [{ name := jsOr (mapGet params ("type".toList)) ("Unknown".toList)
                  ++ " clue scroll".toList
                quantity := "1".toList
                rarity := jsOr (mapGet params ("rarity".toList)) ("Unknown".toList)
                category := "Tertiary".toList }])
    []

/-- The `HerbDropLines` pass over one line. -/
def herbDropRecords (cat line : Str) : List OSRSDrop :=
  (templateMatches herbDropLinesPre line).foldl
    (fun acc ps => acc ++ parseHerbDropTable (herbBaseRate (parseTemplateParams ps)) cat)
    []

/-- The `RareSeedDropLines` pass over one line. -/
def seedDropRecords (cat line : Str) : List OSRSDrop :=
  (templateMatches rareSeedDropLinesPre line).foldl
    (fun acc ps => acc ++ parseRareSeedDropTable (herbBaseRate (parseTemplateParams ps)) cat)
    []

/-- The heading test `line.match(/^===(.+)===$/)` on an already-trimmed line:
a match exists exactly when the line starts with `===`, ends with `===`, and
is at least 7 characters long (so the interior `(.+)` is non-empty). -/
def isHeadingLine (line : Str) : Bool :=
  ("===".toList).isPrefixOf line && ("===".toList).isSuffixOf line && decide (7 ≤ line.length)

/-- `line.replace(/===/g, '')`: remove every leftmost non-overlapping
occurrence of `===`. -/
def stripHeadingMarkers : Str → Str
  | '=' :: '=' :: '=' :: rest => stripHeadingMarkers rest
  | c :: rest => c :: stripHeadingMarkers rest
  | [] => []

/-- The category a heading line installs: markers removed, then trimmed. -/
def headingCategory (line : Str) : Str := strTrim (stripHeadingMarkers line)

/-- All records one (trimmed, non-heading) line contributes, in source order:
`DropsLine`, then `DropsLineClue`, then `HerbDropLines`, then
`RareSeedDropLines` matches. -/
def lineRecords (cat line : Str) : List OSRSDrop :=
  simpleDropRecords cat line ++ clueDropRecords line
    ++ herbDropRecords cat line ++ seedDropRecords cat line

/-- One step of the line loop of `parseDropsFromWikitext`: state is
`(currentCategory, accumulated records)`. -/
def wikitextStep (acc : Str × List OSRSDrop) (rawLine : Str) : Str × List OSRSDrop :=
  let line := strTrim rawLine
  if isHeadingLine line then (headingCategory line, acc.2)
  else (acc.1, acc.2 ++ lineRecords acc.1 line)

/-- `parseDropsFromWikitext`. -/
def parseDropsFromWikitext (wikitext : Str) : List OSRSDrop :=
  ((splitOnChar '\n' wikitext).foldl wikitextStep ("Unknown".toList, [])).2

/-!
## The monster cache service (`MonsterCacheService`)
-/

/-- A cache entry: a monster payload plus freshness metadata (`MonsterCacheEntry`). -/
structure MonsterCacheEntry where
  title : Str
  url : Str
  extract : Option Str := none
  image : Option Str := none
  drops : List OSRSDrop := []
  combatLevel : Option Nat := none
  hitpoints : Option Nat := none
  lastUpdated : Nat
  expiresAt : Nat
  searchKeywords : List Str
deriving DecidableEq

/-- `MonsterCacheStats` (the two rate fields are JS numbers, modelled over `ℚ`). -/
structure MonsterCacheStats where
  totalMonsters : Nat
  lastRefresh : Nat
  cacheHitRate : ℚ
  averageSearchTime : ℚ
deriving DecidableEq

/-- The private `searchMetrics` record. -/
structure SearchMetrics where
  hits : Nat
  misses : Nat
  totalTime : ℚ
  searches : Nat
deriving DecidableEq

/-- The full mutable state of a `MonsterCacheService` instance. -/
structure CacheState where
  cache : List (Str × MonsterCacheEntry)
  searchIndex : List (Str × List Str)
  stats : MonsterCacheStats
  searchMetrics : SearchMetrics
deriving DecidableEq

def TTL_MS : Nat := 24 * 60 * 60 * 1000

def MAX_CACHE_SIZE : Nat := 1000

/-- `isExpired`: `Date.now() > entry.expiresAt.getTime()`. -/
def isExpired (now : Nat) (entry : MonsterCacheEntry) : Bool :=
  decide (entry.expiresAt < now)

/-- `updateStats`: reads the current cache size and stamps the refresh time. -/
def updateStats (now : Nat) (s : CacheState) : CacheState :=
  { s with stats := { s.stats with totalMonsters := s.cache.length, lastRefresh := now } }

/-- `removeFromSearchIndex`: drop `title` from every keyword's title-set and
delete a keyword entirely once its set becomes empty. -/
def removeFromSearchIndex (title : Str) (idx : List (Str × List Str)) : List (Str × List Str) :=
  idx.filterMap (fun kv =>
    let ts := kv.2.filter (fun t => t ≠ title)
    if ts.isEmpty then none else some (kv.1, ts))

/-- Delete one title from the entity table and the keyword index. -/
def deleteTitle (s : CacheState) (title : Str) : CacheState :=
  { s with cache := mapDelete s.cache title
           searchIndex := removeFromSearchIndex title s.searchIndex }

/-- `cleanExpiredEntries`: collect the expired keys, delete each of them, and
refresh the stats when anything was deleted. -/
def cleanExpiredEntries (now : Nat) (s : CacheState) : CacheState :=
  let expiredKeys := (s.cache.filter (fun kv => isExpired now kv.2)).map (·.1)
  let s1 := expiredKeys.foldl deleteTitle s
  if expiredKeys.isEmpty then s1 else updateStats now s1

/-- The comparator of `enforceCacheSize`'s sort:
`a.lastUpdated.getTime() - b.lastUpdated.getTime()` ascending. -/
def lastUpdatedLe (a b : Str × MonsterCacheEntry) : Prop :=
  a.2.lastUpdated ≤ b.2.lastUpdated

instance : DecidableRel lastUpdatedLe := fun a b => Nat.decLe a.2.lastUpdated b.2.lastUpdated

instance : IsTotal (Str × MonsterCacheEntry) lastUpdatedLe :=
  ⟨fun a b => Nat.le_total a.2.lastUpdated b.2.lastUpdated⟩

instance : IsTrans (Str × MonsterCacheEntry) lastUpdatedLe :=
  ⟨fun _ _ _ hab hbc => Nat.le_trans hab hbc⟩

/-- `enforceCacheSize`: when over `MAX_CACHE_SIZE`, sort by `lastUpdated`
ascending and evict the first `size - MAX_CACHE_SIZE` entries. -/
def enforceCacheSize (now : Nat) (s : CacheState) : CacheState :=
  if s.cache.length ≤ MAX_CACHE_SIZE then s
  else
    let sorted := List.insertionSort lastUpdatedLe s.cache
    let toRemove := sorted.take (s.cache.length - MAX_CACHE_SIZE)
    updateStats now ((toRemove.map (·.1)).foldl deleteTitle s)

/-- Word-splitting character class of `generateSearchKeywords` (`/[\s\-_()]+/`). -/
def isWordSplitChar (c : Char) : Bool :=
  c.isWhitespace || c = '-' || c = '_' || c = '(' || c = ')'

/-- Split at every character satisfying `p` (splitting on a `+`-run regex and
filtering empty pieces afterwards gives the same non-empty pieces). -/
def splitOnPred (p : Char → Bool) : Str → List Str
  | [] => [[]]
  | x :: xs =>
    if p x then [] :: splitOnPred p xs
    else
      match splitOnPred p xs with
      | [] => [[x]]
      | h :: t => (x :: h) :: t

/-- `generateSearchKeywords`: the lowercased title, each of its words, and
every prefix of length ≥ 3 of each word, as an insertion-ordered set. -/
def generateSearchKeywords (title : Str) : List Str :=
  let normalized := strLower title
  let keywords := setAdd [] normalized
  let words := (splitOnPred isWordSplitChar normalized).filter (fun w => w ≠ [])
  let keywords := words.foldl setAdd keywords
  words.foldl
    (fun ks w =>
      if 3 ≤ w.length then
        (List.range' 3 (w.length - 2)).foldl (fun ks2 i => setAdd ks2 (w.take i)) ks
      else ks)
    keywords

/-- The add half of `updateSearchIndex` for one keyword: create the keyword's
set when absent, then add the title to it. -/
def indexAdd (idx : List (Str × List Str)) (kw title : Str) : List (Str × List Str) :=
  match mapGet idx kw with
  | some ts => mapSet idx kw (setAdd ts title)
  | none => mapSet idx kw (setAdd [] title)

/-- `updateSearchIndex`: remove the title from all prior keyword sets, then add
it under each of the entry's keywords. -/
def updateSearchIndex (entry : MonsterCacheEntry) (idx : List (Str × List Str)) :
    List (Str × List Str) :=
  entry.searchKeywords.foldl (fun i kw => indexAdd i kw entry.title)
    (removeFromSearchIndex entry.title idx)

/-- The entry built by `setMonster`. -/
def mkEntry (m : OSRSMonster) (now : Nat) : MonsterCacheEntry :=
  { title := m.title, url := m.url, extract := m.extract, image := m.image
    drops := m.drops, combatLevel := m.combatLevel, hitpoints := m.hitpoints
    lastUpdated := now, expiresAt := now + TTL_MS
    searchKeywords := generateSearchKeywords m.title }

/-- `setMonster`: store the entry, refresh the index and stats, then enforce
the capacity bound. -/
def setMonster (m : OSRSMonster) (now : Nat) (s : CacheState) : CacheState :=
  let entry := mkEntry m now
  let s1 := { s with cache := mapSet s.cache m.title entry
                     searchIndex := updateSearchIndex entry s.searchIndex }
  enforceCacheSize now (updateStats now s1)

/-- `getMonster`: lazy-expiry read; deletes an expired entry as a side effect. -/
def getMonster (title : Str) (now : Nat) (s : CacheState) :
    Option MonsterCacheEntry × CacheState :=
  match mapGet s.cache title with
  | none => (none, s)
  | some entry =>
    if isExpired now entry then (none, updateStats now (deleteTitle s title))
    else (some entry, s)

/-- `hasMonster`: same lazy-expiry semantics, boolean result. -/
def hasMonster (title : Str) (now : Nat) (s : CacheState) : Bool × CacheState :=
  match mapGet s.cache title with
  | none => (false, s)
  | some entry =>
    if isExpired now entry then (false, updateStats now (deleteTitle s title))
    else (true, s)

/-- Liveness of a candidate title during the scoring pass:
`entry && !this.isExpired(entry)` after a `cache.get`. -/
def isLive (cache : List (Str × MonsterCacheEntry)) (now : Nat) (title : Str) : Bool :=
  match mapGet cache title with
  | some e => !isExpired now e
  | none => false

/-- Add `pts` to every live title of a keyword's title-set, registering each
as a potential match (`potentialMatches` × `matchScores`). -/
def scoreAddAll (cache : List (Str × MonsterCacheEntry)) (now : Nat) (pts : Nat)
    (titleSet : List Str) (acc : List Str × List (Str × Nat)) :
    List Str × List (Str × Nat) :=
  titleSet.foldl
    (fun a title =>
      if isLive cache now title then
        (setAdd a.1 title, mapSet a.2 title (((mapGet a.2 title).getD 0) + pts))
      else a)
    acc

/-- One keyword of the single scoring pass of `searchMonsters`: exact match
+100; else prefix match +50/+25 by keyword length; else substring match +10,
only while fewer than `limit * 2` distinct candidates have been found. -/
def scoreStep (cache : List (Str × MonsterCacheEntry)) (now : Nat) (ql : Str) (limit : Nat)
    (acc : List Str × List (Str × Nat)) (kv : Str × List Str) :
    List Str × List (Str × Nat) :=
  if kv.1 = ql then
    scoreAddAll cache now 100 kv.2 acc
  else if ql.isPrefixOf kv.1 then
    scoreAddAll cache now (if kv.1.length = ql.length then 50 else 25) kv.2 acc
  else if acc.1.length < limit * 2 ∧ strContains kv.1 ql then
    scoreAddAll cache now 10 kv.2 acc
  else acc

/-- One ranked search candidate (the `{title, monster, score}` triple). -/
structure ScoredEntry where
  title : Str
  monster : MonsterCacheEntry
  score : Nat
deriving DecidableEq

/-- The sort relation of `searchMonsters`' comparator: score descending, then
title length ascending, then title alphabetically ascending
(`a.title.localeCompare(b.title)` is modelled by the character-wise
lexicographic order on `List Char`; exact collation is locale-dependent, the
repository's titles are plain ASCII). -/
def rankLe (a b : ScoredEntry) : Prop :=
  b.score < a.score
    ∨ (a.score = b.score
        ∧ (a.title.length < b.title.length
            ∨ (a.title.length = b.title.length ∧ a.title ≤ b.title)))

instance : DecidableRel rankLe := fun a b => by
  unfold rankLe; infer_instance

/-- Map surviving candidates to scored triples, dropping titles whose entry is
missing or expired. -/
def searchSurvivors (cache : List (Str × MonsterCacheEntry)) (now : Nat)
    (pm : List Str) (ms : List (Str × Nat)) : List ScoredEntry :=
  pm.filterMap (fun title =>
    match mapGet cache title with
    | some e => if isExpired now e then none else some ⟨title, e, (mapGet ms title).getD 0⟩
    | none => none)

/-- The metrics/stats update at the end of a non-trivial `searchMonsters` call. -/
def recordSearchMetrics (hit : Bool) (elapsed : ℚ) (s : CacheState) : CacheState :=
  let m := s.searchMetrics
  let m1 : SearchMetrics :=
    { m with searches := m.searches + 1, totalTime := m.totalTime + elapsed }
  let m2 : SearchMetrics :=
    if hit then { m1 with hits := m1.hits + 1 } else { m1 with misses := m1.misses + 1 }
  { s with searchMetrics := m2
           stats := { s.stats with
             cacheHitRate := (m2.hits : ℚ) / (m2.searches : ℚ)
             averageSearchTime := m2.totalTime / (m2.searches : ℚ) } }

/-- The result record of `searchMonsters`. -/
structure SearchOutcome where
  results : List MonsterCacheEntry
  fromCache : Bool
deriving DecidableEq

/-- `searchMonsters query limit now elapsed s`: the full search call.
`elapsed` is the externally-measured wall-clock duration fed into the metrics
(the source computes it from two `Date.now()` reads). -/
def searchMonsters (query : Str) (limit : Nat) (now : Nat) (elapsed : ℚ)
    (s : CacheState) : SearchOutcome × CacheState :=
  if (strTrim query).isEmpty then (⟨[], true⟩, s)
  else
    let s1 := cleanExpiredEntries now s
    let ql := strLower query
    let pmms := s1.searchIndex.foldl (scoreStep s1.cache now ql limit) ([], [])
    let survivors := searchSurvivors s1.cache now pmms.1 pmms.2
    let cachedResults := ((List.insertionSort rankLe survivors).take limit).map (·.monster)
    if cachedResults.isEmpty then
      (⟨[], false⟩, recordSearchMetrics false elapsed s1)
    else
      (⟨cachedResults, true⟩, recordSearchMetrics true elapsed s1)

/-!
## Snapshot serialization (`serializeCache` / `deserializeCache` /
`exportCache` / `importCache`)

`exportCache` JSON-stringifies the serialized structure and `importCache`
JSON-parses it back; on this model (timestamps already `Nat`, all fields
present) the JSON text round-trip is the identity, so both are modelled
directly on the structured snapshot.
-/

/-- The versioned snapshot document. -/
structure SerializedCache where
  monsters : List (Str × MonsterCacheEntry)
  searchIndex : List (Str × List Str)
  stats : MonsterCacheStats
  version : Str
deriving DecidableEq

/-- `serializeCache`. -/
def serializeCache (s : CacheState) : SerializedCache :=
  { monsters := s.cache
    searchIndex := s.searchIndex.map (fun kv => (kv.1, kv.2))
    stats := s.stats
    version := "1.0".toList }

/-- `deserializeCache`: on a version mismatch the snapshot is discarded;
otherwise each monster is `set` into the current cache (the per-entry
timestamp/keyword rebuild is the identity on this model since every field is
present), each keyword's title list is rebuilt as a `Set` (`foldl setAdd []`),
and the stats are replaced. -/
def deserializeCache (data : SerializedCache) (s : CacheState) : CacheState :=
  if data.version ≠ "1.0".toList then s
  else
    let s1 := { s with cache :=
      (data.monsters.foldl (fun c (te : Str × MonsterCacheEntry) => mapSet c te.1 te.2) s.cache) }
    let s2 := { s1 with searchIndex :=
      (data.searchIndex.foldl
        (fun i (kt : Str × List Str) => mapSet i kt.1 (kt.2.foldl setAdd []))
        s1.searchIndex) }
    { s2 with stats := data.stats }

/-- `exportCache` (modulo the JSON text layer, see above). -/
def exportCache (s : CacheState) : SerializedCache := serializeCache s

/-- `importCache` (modulo the JSON text layer, see above). -/
def importCache (data : SerializedCache) (s : CacheState) : CacheState :=
  deserializeCache data s

/-!
## Claim theorems
-/

theorem recordSearchMetrics_cache (hit : Bool) (elapsed : ℚ) (s : CacheState) :
    (recordSearchMetrics hit elapsed s).cache = s.cache := rfl

theorem recordSearchMetrics_searchIndex (hit : Bool) (elapsed : ℚ) (s : CacheState) :
    (recordSearchMetrics hit elapsed s).searchIndex = s.searchIndex := rfl

/-- C2: an empty or whitespace-only query returns empty results with
`fromCache = true` and no state change; any other query returns
`fromCache = true` exactly when the result list is non-empty and
`fromCache = false` exactly when it is empty. -/
theorem searchMonsters_fromCache_spec (query : Str) (limit : Nat) (now : Nat)
    (elapsed : ℚ) (s : CacheState) :
    ((strTrim query).isEmpty = true →
      searchMonsters query limit now elapsed s = (⟨[], true⟩, s))
    ∧ ((strTrim query).isEmpty = false →
      (((searchMonsters query limit now elapsed s).1.fromCache = true ↔
          (searchMonsters query limit now elapsed s).1.results ≠ [])
        ∧ ((searchMonsters query limit now elapsed s).1.fromCache = false ↔
          (searchMonsters query limit now elapsed s).1.results = []))) := by
  constructor
  · intro h
    simp [searchMonsters, h]
  · intro h
    unfold searchMonsters
    simp only [h, Bool.false_eq_true, if_false]
    set cr := ((List.insertionSort rankLe
      (searchSurvivors (cleanExpiredEntries now s).cache now
        ((cleanExpiredEntries now s).searchIndex.foldl
          (scoreStep (cleanExpiredEntries now s).cache now (strLower query) limit)
          ([], [])).1
        ((cleanExpiredEntries now s).searchIndex.foldl
          (scoreStep (cleanExpiredEntries now s).cache now (strLower query) limit)
          ([], [])).2)).take limit).map (·.monster) with hcr
    by_cases hc : cr.isEmpty
    · simp [hc, List.isEmpty_iff.mp hc]
    · have : cr ≠ [] := by
        intro hnil; exact hc (by simp [hnil])
      simp [hc, this]

/-- C2 witness. -/
theorem searchMonsters_fromCache_spec_witness :
    (strTrim ("  ".toList)).isEmpty = true
    ∧ searchMonsters ("  ".toList) 10 0 0
        ⟨[], [], ⟨0, 0, 0, 0⟩, ⟨0, 0, 0, 0⟩⟩ = (⟨[], true⟩, ⟨[], [], ⟨0, 0, 0, 0⟩, ⟨0, 0, 0, 0⟩⟩)
    ∧ (strTrim ("x".toList)).isEmpty = false
    ∧ ((searchMonsters ("x".toList) 10 0 0
        ⟨[], [], ⟨0, 0, 0, 0⟩, ⟨0, 0, 0, 0⟩⟩).1.fromCache = false ↔
        (searchMonsters ("x".toList) 10 0 0
          ⟨[], [], ⟨0, 0, 0, 0⟩, ⟨0, 0, 0, 0⟩⟩).1.results = []) :=
  ⟨by decide,
   (searchMonsters_fromCache_spec ("  ".toList) 10 0 0
     ⟨[], [], ⟨0, 0, 0, 0⟩, ⟨0, 0, 0, 0⟩⟩).1 (by decide),
   by decide,
   ((searchMonsters_fromCache_spec ("x".toList) 10 0 0
     ⟨[], [], ⟨0, 0, 0, 0⟩, ⟨0, 0, 0, 0⟩⟩).2 (by decide)).2⟩

/-- C10: for a non-trivial query, everything after the initial expired-entry
sweep leaves the monster map and the keyword index unchanged — the search
only replaces the stats and search-metrics fields. -/
theorem searchMonsters_frame (query : Str) (limit : Nat) (now : Nat) (elapsed : ℚ)
    (s : CacheState) (h : (strTrim query).isEmpty = false) :
    (searchMonsters query limit now elapsed s).2.cache = (cleanExpiredEntries now s).cache
    ∧ (searchMonsters query limit now elapsed s).2.searchIndex
        = (cleanExpiredEntries now s).searchIndex := by
  unfold searchMonsters
  simp only [h, Bool.false_eq_true, if_false]
  set cr := ((List.insertionSort rankLe
    (searchSurvivors (cleanExpiredEntries now s).cache now
      ((cleanExpiredEntries now s).searchIndex.foldl
        (scoreStep (cleanExpiredEntries now s).cache now (strLower query) limit)
        ([], [])).1
      ((cleanExpiredEntries now s).searchIndex.foldl
        (scoreStep (cleanExpiredEntries now s).cache now (strLower query) limit)
        ([], [])).2)).take limit).map (·.monster) with hcr
  by_cases hc : cr.isEmpty <;>
    simp [hc, recordSearchMetrics_cache, recordSearchMetrics_searchIndex]

/-- C10 witness. -/
theorem searchMonsters_frame_witness :
    (strTrim ("x".toList)).isEmpty = false
    ∧ (searchMonsters ("x".toList) 10 0 0
        ⟨[], [], ⟨0, 0, 0, 0⟩, ⟨0, 0, 0, 0⟩⟩).2.cache
        = (cleanExpiredEntries 0 ⟨[], [], ⟨0, 0, 0, 0⟩, ⟨0, 0, 0, 0⟩⟩).cache :=
  ⟨by decide,
   (searchMonsters_frame ("x".toList) 10 0 0
     ⟨[], [], ⟨0, 0, 0, 0⟩, ⟨0, 0, 0, 0⟩⟩ (by decide)).1⟩

/-- The 13 rarity strings the claim predicts for a herb expansion with base
rate `br`: `"<baseRate> (<weight>/79)"` in fixed herb order. -/
def herbRarityList (br : Str) : List Str :=
  [br ++ " (19/79)".toList, br ++ " (15/79)".toList, br ++ " (12/79)".toList,
   br ++ " (9/79)".toList, br ++ " (6/79)".toList, br ++ " (4/79)".toList,
   br ++ " (4/79)".toList, br ++ " (3/79)".toList, br ++ " (2/79)".toList,
   br ++ " (2/79)".toList, br ++ " (1/79)".toList, br ++ " (1/79)".toList,
   br ++ " (1/79)".toList]

theorem parseHerbDropTable_rarities (br cat : Str) :
    (parseHerbDropTable br cat).map (·.rarity) = herbRarityList br := by
  have hcongr : ∀ (x y : Str), x = y → br ++ x = br ++ y := fun x y h => by rw [h]
  simp only [parseHerbDropTable, herbTable, herbRarityList, List.map_cons, List.map_nil,
    List.append_assoc, List.cons.injEq, and_true]
  refine ⟨?_, ?_, ?_, ?_, ?_, ?_, ?_, ?_, ?_, ?_, ?_, ?_, ?_⟩ <;>
    exact hcongr _ _ (by decide)

/-- C5: a `HerbDropLines` template takes its base rate from positional
parameter `"0"`, else `"1"`, else `"Unknown"` (JS `||`, so an absent or empty
value falls through), and expands into exactly 13 records in fixed herb
order, quantity `"1-3"`, the current category, and rarity
`"<baseRate> (<weight>/79)"` with the weights summing to 79; in particular
`"\x7b\x7bHerbDropLines|1/128\x7d\x7d"` yields 13 records whose rarities all
have the form `"1/128 (<w>/79)"`. -/
theorem herbDropLines_expansion (line cat ps : Str)
    (hps : ps ∈ templateMatches herbDropLinesPre line) :
    (∀ params v0, mapGet params ("0".toList) = some v0 → v0 ≠ [] →
        herbBaseRate params = v0)
    ∧ (∀ params v1, mapGet params ("0".toList) = none →
        mapGet params ("1".toList) = some v1 → v1 ≠ [] → herbBaseRate params = v1)
    ∧ (∀ params, mapGet params ("0".toList) = none →
        mapGet params ("1".toList) = none → herbBaseRate params = "Unknown".toList)
    ∧ (parseHerbDropTable (herbBaseRate (parseTemplateParams ps)) cat).length = 13
    ∧ (∀ d ∈ parseHerbDropTable (herbBaseRate (parseTemplateParams ps)) cat,
        d.quantity = "1-3".toList ∧ d.category = cat)
    ∧ (parseHerbDropTable (herbBaseRate (parseTemplateParams ps)) cat).map (·.rarity)
        = herbRarityList (herbBaseRate (parseTemplateParams ps))
    ∧ (herbTable.map (·.weight)) = [19, 15, 12, 9, 6, 4, 4, 3, 2, 2, 1, 1, 1]
    ∧ (herbTable.map (·.weight)).sum = 79
    ∧ herbTotalWeight = 79
    ∧ (parseDropsFromWikitext ("\x7b\x7bHerbDropLines|1/128\x7d\x7d".toList)).map (·.rarity)
        = herbRarityList ("1/128".toList)
    ∧ (parseDropsFromWikitext ("\x7b\x7bHerbDropLines|1/128\x7d\x7d".toList)).length = 13 := by
  refine ⟨?_, ?_, ?_, ?_, ?_, parseHerbDropTable_rarities _ _, by decide, by decide, by decide,
    ?_, by decide⟩
  · intro params v0 h0 hne
    have h0' : mapGet params (['0'] : Str) = some v0 := h0
    simp [herbBaseRate, jsOr, h0', hne]
  · intro params v1 h0 h1 hne
    have h0' : mapGet params (['0'] : Str) = none := h0
    have h1' : mapGet params (['1'] : Str) = some v1 := h1
    simp [herbBaseRate, jsOr, h0', h1', hne]
  · intro params h0 h1
    have h0' : mapGet params (['0'] : Str) = none := h0
    have h1' : mapGet params (['1'] : Str) = none := h1
    simp [herbBaseRate, jsOr, h0', h1']
  · simp [parseHerbDropTable, herbTable]
  · intro d hd
    simp only [parseHerbDropTable, List.mem_map] at hd
    obtain ⟨h, _, rfl⟩ := hd
    exact ⟨rfl, rfl⟩
  · have h1 : parseDropsFromWikitext ("\x7b\x7bHerbDropLines|1/128\x7d\x7d".toList)
        = parseHerbDropTable ("1/128".toList) ("Unknown".toList) := by decide
    rw [h1, parseHerbDropTable_rarities]

/-- C5 witness. -/
theorem herbDropLines_expansion_witness :
    ("1/128".toList ∈ templateMatches herbDropLinesPre
        ("\x7b\x7bHerbDropLines|1/128\x7d\x7d".toList))
    ∧ (parseHerbDropTable
        (herbBaseRate (parseTemplateParams ("1/128".toList))) ("Unknown".toList)).length = 13 :=
  ⟨by decide,
   (herbDropLines_expansion ("\x7b\x7bHerbDropLines|1/128\x7d\x7d".toList)
     ("Unknown".toList) ("1/128".toList) (by decide)).2.2.2.1⟩

theorem splitOnChar_ne_nil (c : Char) (l : Str) : splitOnChar c l ≠ [] := by
  induction l with
  | nil => simp [splitOnChar]
  | cons x xs ih =>
    simp only [splitOnChar]
    split_ifs
    · simp
    · cases h : splitOnChar c xs <;> simp

theorem splitOnChar_spec (c : Char) (l : Str) :
    splitOnChar c l = l.takeWhile (fun x => x ≠ c) ::
      (if c ∈ l then splitOnChar c ((l.dropWhile (fun x => x ≠ c)).tail) else []) := by
  induction l with
  | nil => simp [splitOnChar]
  | cons x xs ih =>
    by_cases h : x = c
    · subst h
      simp [splitOnChar, List.takeWhile_cons, List.dropWhile_cons]
    · have hmem : (c ∈ x :: xs) ↔ (c ∈ xs) := by
        simp only [List.mem_cons, or_iff_right_iff_imp]
        intro hh
        exact absurd hh.symm h
      simp only [splitOnChar, if_neg h]
      rw [ih]
      simp [List.takeWhile_cons, List.dropWhile_cons, h, hmem]

theorem joinWith_splitOnChar (c : Char) (l : Str) :
    joinWith c (splitOnChar c l) = l := by
  induction l with
  | nil => simp [splitOnChar, joinWith]
  | cons x xs ih =>
    by_cases h : x = c
    · subst h
      simp only [splitOnChar, if_pos rfl]
      cases hs : splitOnChar x xs with
      | nil => exact absurd hs (splitOnChar_ne_nil x xs)
      | cons p ps =>
        rw [hs] at ih
        simp [joinWith, ih]
    · simp only [splitOnChar, if_neg h]
      cases hs : splitOnChar c xs with
      | nil => exact absurd hs (splitOnChar_ne_nil c xs)
      | cons p ps =>
        rw [hs] at ih
        cases ps with
        | nil => simp_all [joinWith]
        | cons q qs => simp_all [joinWith]

/-- The claim's reading of `parseTemplateParams`: any piece containing `=`
becomes a key/value pair keyed by the (possibly empty) text left of the first
`=`; only pieces with no `=` are stored positionally. -/
def parseTemplateParamsClaimed (paramString : Str) : List (Str × Str) :=
  ((splitOnChar '|' paramString).enum).foldl
    (fun params ip =>
      if '=' ∈ ip.2 then
        mapSet params (strTrim (ip.2.takeWhile (fun x => x ≠ '=')))
          (strTrim ((ip.2.dropWhile (fun x => x ≠ '=')).tail))
      else if ip.1 = 0 then
        mapSet params ("0".toList) (strTrim ip.2)
      else
        mapSet params (natToStr ip.1) (strTrim ip.2))
    []

/-- The amended reading: a piece becomes a key/value pair only when it
contains `=` AND the text left of the first `=` is non-empty; every other
piece (no `=`, or an empty key) is stored positionally. -/
def parseTemplateParamsAmended (paramString : Str) : List (Str × Str) :=
  ((splitOnChar '|' paramString).enum).foldl
    (fun params ip =>
      if '=' ∈ ip.2 ∧ ip.2.takeWhile (fun x => x ≠ '=') ≠ [] then
        mapSet params (strTrim (ip.2.takeWhile (fun x => x ≠ '=')))
          (strTrim ((ip.2.dropWhile (fun x => x ≠ '=')).tail))
      else if ip.1 = 0 then
        mapSet params ("0".toList) (strTrim ip.2)
      else
        mapSet params (natToStr ip.1) (strTrim ip.2))
    []

/-- C6 counterexample: on the piece `"=x"` (which contains `=` but has an
empty key) the code stores the whole piece positionally under `"0"`, while
the claim's reading would store `"x"` under the empty key. -/
theorem parseTemplateParams_claim_counterexample :
    parseTemplateParams ("=x".toList) ≠ parseTemplateParamsClaimed ("=x".toList)
    ∧ parseTemplateParams ("=x".toList) = [("0".toList, "=x".toList)]
    ∧ parseTemplateParamsClaimed ("=x".toList) = [(([] : Str), "x".toList)] := by
  decide

/-- C6 (amended): `parseTemplateParams` splits on `|` and, for each piece:
when the piece contains `=` and the text left of the first `=` is non-empty,
that text (trimmed) becomes the key and the text right of the first `=`
(trimmed, later `=` rejoined literally) becomes the value; every other piece
is stored positionally (index 0 under `"0"`, later pieces under their decimal
index).  The function is total (raises no error on any input). -/
theorem parseTemplateParams_amended_spec (s : Str) :
    parseTemplateParams s = parseTemplateParamsAmended s := by
  unfold parseTemplateParams parseTemplateParamsAmended
  congr 1
  funext params ip
  have hspec := splitOnChar_spec '=' ip.2
  dsimp only
  rw [hspec]
  simp only [List.headI_cons, List.tail_cons]
  by_cases hm : '=' ∈ ip.2
  · rw [if_pos hm]
    have hvpne : splitOnChar '=' ((ip.2.dropWhile (fun x => x ≠ '=')).tail) ≠ [] :=
      splitOnChar_ne_nil _ _
    by_cases hk : ip.2.takeWhile (fun x => x ≠ '=') = []
    · have hcF : ¬(ip.2.takeWhile (fun x => x ≠ '=') ≠ []
          ∧ splitOnChar '=' ((ip.2.dropWhile (fun x => x ≠ '=')).tail) ≠ []) :=
        fun hcon => hcon.1 hk
      have haF : ¬('=' ∈ ip.2 ∧ ip.2.takeWhile (fun x => x ≠ '=') ≠ []) :=
        fun hcon => hcon.2 hk
      rw [if_neg hcF, if_neg haF]
    · have hcT : ip.2.takeWhile (fun x => x ≠ '=') ≠ []
          ∧ splitOnChar '=' ((ip.2.dropWhile (fun x => x ≠ '=')).tail) ≠ [] := ⟨hk, hvpne⟩
      have haT : '=' ∈ ip.2 ∧ ip.2.takeWhile (fun x => x ≠ '=') ≠ [] := ⟨hm, hk⟩
      rw [if_pos hcT, if_pos haT, joinWith_splitOnChar]
  · rw [if_neg hm]
    have hcF : ¬(ip.2.takeWhile (fun x => x ≠ '=') ≠ [] ∧ ([] : List Str) ≠ []) :=
      fun hcon => hcon.2 rfl
    have haF : ¬('=' ∈ ip.2 ∧ ip.2.takeWhile (fun x => x ≠ '=') ≠ []) :=
      fun hcon => hm hcon.1
    rw [if_neg hcF, if_neg haF]

/-- The claim's reading of a heading: delimited by exactly three equals signs
on each side (three at each end but not four, interior non-empty). -/
def exactlyThreeDelimited (l : Str) : Bool :=
  ("===".toList).isPrefixOf l && !(("====".toList).isPrefixOf l)
    && ("===".toList).isSuffixOf l && !(("====".toList).isSuffixOf l)
    && decide (7 ≤ l.length)

theorem strContains_cons_false {c : Char} {t needle : Str}
    (h : strContains (c :: t) needle = false) : strContains t needle = false := by
  simp only [strContains, Bool.or_eq_false_iff] at h
  exact h.2

theorem strip_append_triple (I : Str) (h : strContains I ("===".toList) = false) :
    stripHeadingMarkers (I ++ ('=' :: '=' :: '=' :: [])) = I := by
  induction I with
  | nil => rfl
  | cons c I2 ih =>
    have h2 : strContains I2 ("===".toList) = false := strContains_cons_false h
    by_cases hc : c = '='
    · subst hc
      cases I2 with
      | nil => decide
      | cons d I3 =>
        have h3 : strContains I3 ("===".toList) = false := strContains_cons_false h2
        by_cases hd : d = '='
        · subst hd
          cases I3 with
          | nil => decide
          | cons e I4 =>
            by_cases he : e = '='
            · exfalso
              subst he
              simp [strContains, List.isPrefixOf] at h
            · simp only [List.cons_append]
              rw [stripHeadingMarkers.eq_2 _ _ (by
                intro r hq hr
                rw [List.cons.injEq] at hr
                have hr2 := hr.2
                rw [List.cons.injEq] at hr2
                exact he hr2.1)]
              simp only [List.cons.injEq, true_and]
              simpa using ih h2
        · simp only [List.cons_append]
          rw [stripHeadingMarkers.eq_2 _ _ (by
            intro r hq hr
            rw [List.cons.injEq] at hr
            exact hd hr.1)]
          simp only [List.cons.injEq, true_and]
          simpa using ih h2
    · simp only [List.cons_append]
      rw [stripHeadingMarkers.eq_2 _ _ (fun r hq _ => hc hq)]
      simp only [List.cons.injEq, true_and]
      simpa using ih h2

/-- C7 counterexample: `"====Weapons===="` is not delimited by exactly three
equals signs on each side, yet the code treats it as a heading and sets the
category of the following drop line to `"=Weapons="` (the claim predicts the
category would remain `"Unknown"`). -/
theorem heading_claim_counterexample :
    (∀ l ∈ splitOnChar '\n'
        ("====Weapons====\n\x7b\x7bDropsLine|name=Sword\x7d\x7d".toList),
      exactlyThreeDelimited (strTrim l) = false)
    ∧ (parseDropsFromWikitext
        ("====Weapons====\n\x7b\x7bDropsLine|name=Sword\x7d\x7d".toList)).map (·.category)
        = ["=Weapons=".toList]
    ∧ "=Weapons=".toList ≠ "Unknown".toList := by
  decide

/-- C7 (amended): a trimmed line is treated as a heading exactly when it
starts with `===`, ends with `===`, and has length ≥ 7 (the regex
`^===(.+)===$`); such a line emits no records and sets the category to the
line with every leftmost non-overlapping `===` occurrence removed, then
trimmed — which equals the interior trimmed whenever the interior contains no
`===` (in particular for every exactly-three-delimited heading with a
`===`-free interior); any other line leaves the category unchanged. -/
theorem wikitext_heading_amended (cat : Str) (ds : List OSRSDrop) (rawLine : Str) :
    (isHeadingLine (strTrim rawLine) = true →
      wikitextStep (cat, ds) rawLine = (headingCategory (strTrim rawLine), ds))
    ∧ (isHeadingLine (strTrim rawLine) = false →
      wikitextStep (cat, ds) rawLine = (cat, ds ++ lineRecords cat (strTrim rawLine)))
    ∧ (∀ l : Str, isHeadingLine l = true ↔
        (("===".toList).isPrefixOf l = true ∧ ("===".toList).isSuffixOf l = true
          ∧ 7 ≤ l.length))
    ∧ (∀ l : Str, exactlyThreeDelimited l = true → isHeadingLine l = true)
    ∧ (∀ interior : Str, strContains interior ("===".toList) = false →
        headingCategory ("===".toList ++ interior ++ "===".toList) = strTrim interior) := by
  refine ⟨?_, ?_, ?_, ?_, ?_⟩
  · intro h
    simp [wikitextStep, h]
  · intro h
    simp [wikitextStep, h]
  · intro l
    simp [isHeadingLine, Bool.and_eq_true, decide_eq_true_eq, and_assoc]
  · intro l h
    simp only [exactlyThreeDelimited, Bool.and_eq_true, Bool.not_eq_true,
      decide_eq_true_eq] at h
    simp only [isHeadingLine, Bool.and_eq_true, decide_eq_true_eq]
    tauto
  · intro I hI
    unfold headingCategory
    congr 1
    have hform : ("===".toList ++ I ++ "===".toList)
        = '=' :: '=' :: '=' :: (I ++ ('=' :: '=' :: '=' :: [])) := by
      simp [List.append_assoc]
    rw [hform, stripHeadingMarkers.eq_1]
    exact strip_append_triple I hI

/-- C7 witness. -/
theorem wikitext_heading_amended_witness :
    isHeadingLine (strTrim ("===Weapons===".toList)) = true
    ∧ wikitextStep ("Unknown".toList, []) ("===Weapons===".toList)
        = (headingCategory (strTrim ("===Weapons===".toList)), []) :=
  ⟨by decide,
   (wikitext_heading_amended ("Unknown".toList) [] ("===Weapons===".toList)).1 (by decide)⟩

theorem mapGet_mapDelete_self (m : List (Str × α)) (k : Str) :
    mapGet (mapDelete m k) k = none := by
  induction m with
  | nil => rfl
  | cons kv rest ih =>
    by_cases h : kv.1 = k
    · simpa [mapDelete, List.filter_cons, h] using ih
    · simpa [mapDelete, mapGet, List.filter_cons, h, List.find?] using ih

theorem removeFromSearchIndex_not_mem (title : Str) (idx : List (Str × List Str)) :
    ∀ kv ∈ removeFromSearchIndex title idx, title ∉ kv.2 := by
  intro kv hkv
  simp only [removeFromSearchIndex, List.mem_filterMap] at hkv
  obtain ⟨kv0, _, hf⟩ := hkv
  split_ifs at hf with he
  injection hf with hf2
  rw [← hf2]
  intro hmem
  have h3 := List.of_mem_filter hmem
  simp at h3

theorem searchSurvivors_live {cache : List (Str × MonsterCacheEntry)} {now : Nat}
    {pm : List Str} {ms : List (Str × Nat)} {se : ScoredEntry}
    (h : se ∈ searchSurvivors cache now pm ms) : isExpired now se.monster = false := by
  simp only [searchSurvivors, List.mem_filterMap] at h
  obtain ⟨t, _, hf⟩ := h
  cases hg : mapGet cache t with
  | none => rw [hg] at hf; simp at hf
  | some e2 =>
    rw [hg] at hf
    dsimp only at hf
    split_ifs at hf with hex
    injection hf with hf2
    rw [← hf2]
    simpa using hex

theorem searchMonsters_results_live (query : Str) (limit : Nat) (now : Nat) (elapsed : ℚ)
    (s : CacheState) :
    ∀ e2 ∈ (searchMonsters query limit now elapsed s).1.results,
      isExpired now e2 = false := by
  intro e2 he2
  unfold searchMonsters at he2
  by_cases hq : (strTrim query).isEmpty
  · simp [hq] at he2
  · simp only [hq, Bool.false_eq_true, if_false] at he2
    set survivors := searchSurvivors (cleanExpiredEntries now s).cache now
      ((cleanExpiredEntries now s).searchIndex.foldl
        (scoreStep (cleanExpiredEntries now s).cache now (strLower query) limit) ([], [])).1
      ((cleanExpiredEntries now s).searchIndex.foldl
        (scoreStep (cleanExpiredEntries now s).cache now (strLower query) limit) ([], [])).2
      with hsurv
    split at he2
    · simp at he2
    · simp only at he2
      obtain ⟨se, hse, rfl⟩ := List.mem_map.mp he2
      have h1 : se ∈ List.insertionSort rankLe survivors :=
        List.mem_of_mem_take hse
      have h2 : se ∈ survivors := (List.perm_insertionSort rankLe survivors).subset h1
      exact searchSurvivors_live h2

/-- C3: a present, unexpired entry is returned by `getMonster` / reported by
`hasMonster` with no state change; a present but expired entry is deleted
(entity table and keyword-index back-references) by either operation, which
reports absent; and no expired entry ever appears among `searchMonsters`
results. -/
theorem lazy_expiry_spec (title : Str) (now : Nat) (s : CacheState)
    (e : MonsterCacheEntry) (he : mapGet s.cache title = some e) :
    (isExpired now e = false →
      getMonster title now s = (some e, s) ∧ hasMonster title now s = (true, s))
    ∧ (isExpired now e = true →
      getMonster title now s = (none, updateStats now (deleteTitle s title))
      ∧ hasMonster title now s = (false, updateStats now (deleteTitle s title))
      ∧ mapGet (deleteTitle s title).cache title = none
      ∧ (∀ kv ∈ (deleteTitle s title).searchIndex, title ∉ kv.2))
    ∧ (∀ (query : Str) (limit : Nat) (elapsed : ℚ),
        ∀ e2 ∈ (searchMonsters query limit now elapsed s).1.results,
          isExpired now e2 = false)
    ∧ (isExpired now e = true →
        ∀ (query : Str) (limit : Nat) (elapsed : ℚ),
          e ∉ (searchMonsters query limit now elapsed s).1.results) := by
  refine ⟨?_, ?_, ?_, ?_⟩
  · intro hexp
    constructor
    · simp [getMonster, he, hexp]
    · simp [hasMonster, he, hexp]
  · intro hexp
    refine ⟨by simp [getMonster, he, hexp], by simp [hasMonster, he, hexp], ?_, ?_⟩
    · exact mapGet_mapDelete_self s.cache title
    · exact removeFromSearchIndex_not_mem title s.searchIndex
  · intro query limit elapsed
    exact searchMonsters_results_live query limit now elapsed s
  · intro hexp query limit elapsed hmem
    have := searchMonsters_results_live query limit now elapsed s e hmem
    rw [hexp] at this
    exact absurd this (by simp)

/-- C3 witness. -/
theorem lazy_expiry_spec_witness :
    (mapGet ([(("A".toList : Str),
        (⟨"A".toList, "u".toList, none, none, [], none, none, 0, 10, ["a".toList]⟩
          : MonsterCacheEntry))]) ("A".toList)
      = some ⟨"A".toList, "u".toList, none, none, [], none, none, 0, 10, ["a".toList]⟩)
    ∧ getMonster ("A".toList) 5
        ⟨[("A".toList, ⟨"A".toList, "u".toList, none, none, [], none, none, 0, 10,
          ["a".toList]⟩)], [("a".toList, ["A".toList])], ⟨1, 0, 0, 0⟩, ⟨0, 0, 0, 0⟩⟩
      = (some ⟨"A".toList, "u".toList, none, none, [], none, none, 0, 10, ["a".toList]⟩,
        ⟨[("A".toList, ⟨"A".toList, "u".toList, none, none, [], none, none, 0, 10,
          ["a".toList]⟩)], [("a".toList, ["A".toList])], ⟨1, 0, 0, 0⟩, ⟨0, 0, 0, 0⟩⟩) :=
  ⟨by decide,
   ((lazy_expiry_spec ("A".toList) 5
      ⟨[("A".toList, ⟨"A".toList, "u".toList, none, none, [], none, none, 0, 10,
        ["a".toList]⟩)], [("a".toList, ["A".toList])], ⟨1, 0, 0, 0⟩, ⟨0, 0, 0, 0⟩⟩
      ⟨"A".toList, "u".toList, none, none, [], none, none, 0, 10, ["a".toList]⟩
      (by decide)).1 (by decide)).1⟩

/-- Keys of an association list are pairwise distinct (true of every JS `Map`). -/
abbrev keysNodup (m : List (Str × α)) : Prop := (m.map Prod.fst).Nodup

theorem mapSet_mem_self {m : List (Str × α)} {k : Str} {v : α}
    (hnd : keysNodup m) (hmem : (k, v) ∈ m) : mapSet m k v = m := by
  induction m with
  | nil => simp at hmem
  | cons kv rest ih =>
    simp only [keysNodup, List.map_cons, List.nodup_cons] at hnd
    rcases List.mem_cons.mp hmem with h1 | h2
    · rw [← h1]
      simp [mapSet]
    · have hk : kv.1 ≠ k := by
        intro he
        exact hnd.1 (he ▸ (List.mem_map.mpr ⟨(k, v), h2, rfl⟩))
      cases kv with
      | mk k0 v0 =>
        simp only [mapSet, if_neg hk]
        rw [ih hnd.2 h2]

theorem foldl_mapSet_id (f : Str × α → α) (m : List (Str × α)) :
    ∀ acc : List (Str × α), keysNodup acc → (∀ kv ∈ m, (kv.1, f kv) ∈ acc) →
    m.foldl (fun c kv => mapSet c kv.1 (f kv)) acc = acc := by
  induction m with
  | nil => intro acc _ _; rfl
  | cons kv rest ih =>
    intro acc hnd hmem
    simp only [List.foldl_cons]
    rw [mapSet_mem_self hnd (hmem kv (List.mem_cons_self _ _))]
    exact ih acc hnd (fun kv2 h2 => hmem kv2 (List.mem_cons_of_mem _ h2))

theorem foldl_setAdd_of_nodup (ts : List Str) :
    ∀ acc : List Str, (acc ++ ts).Nodup → ts.foldl setAdd acc = acc ++ ts := by
  induction ts with
  | nil => intro acc _; simp
  | cons t ts2 ih =>
    intro acc h
    have hna : t ∉ acc := by
      intro hmem
      exact (List.nodup_append.mp h).2.2 hmem (by simp)
    simp only [List.foldl_cons, setAdd, if_neg hna]
    rw [ih (acc ++ [t]) (by simpa [List.append_assoc] using h)]
    simp

/-- C9: importing the exported snapshot of a cache state reproduces that very
state (same titles and entries, same keyword sets, same stats).  The
well-formedness hypotheses (distinct map keys, duplicate-free title sets)
hold for every state a JS `Map`/`Set` can represent. -/
theorem importCache_exportCache (s : CacheState)
    (hc : keysNodup s.cache) (hi : keysNodup s.searchIndex)
    (hsets : ∀ kv ∈ s.searchIndex, kv.2.Nodup) :
    importCache (exportCache s) s = s := by
  unfold importCache exportCache deserializeCache serializeCache
  rw [if_neg (by simp)]
  dsimp only
  rw [foldl_mapSet_id (fun te => te.2) s.cache s.cache hc (fun kv h => by simpa using h)]
  simp only [Prod.mk.eta]
  rw [List.map_id']
  rw [foldl_mapSet_id (fun kt => kt.2.foldl setAdd []) s.searchIndex s.searchIndex hi
    (fun kv h => by
      show (kv.1, List.foldl setAdd [] kv.2) ∈ s.searchIndex
      rw [foldl_setAdd_of_nodup kv.2 [] (by simpa using hsets kv h)]
      simpa using h)]

/-- C9 witness. -/
theorem importCache_exportCache_witness :
    importCache
      (exportCache
        ⟨[("A".toList, ⟨"A".toList, "u".toList, none, none, [], none, none, 0, 10,
          ["a".toList]⟩)], [("a".toList, ["A".toList])], ⟨1, 0, 0, 0⟩, ⟨0, 0, 0, 0⟩⟩)
      ⟨[("A".toList, ⟨"A".toList, "u".toList, none, none, [], none, none, 0, 10,
        ["a".toList]⟩)], [("a".toList, ["A".toList])], ⟨1, 0, 0, 0⟩, ⟨0, 0, 0, 0⟩⟩
    = ⟨[("A".toList, ⟨"A".toList, "u".toList, none, none, [], none, none, 0, 10,
        ["a".toList]⟩)], [("a".toList, ["A".toList])], ⟨1, 0, 0, 0⟩, ⟨0, 0, 0, 0⟩⟩ :=
  importCache_exportCache _ (by decide) (by decide) (by decide)

theorem mapGet_cons (k0 : Str) (v0 : α) (rest : List (Str × α)) (k : Str) :
    mapGet ((k0, v0) :: rest) k = if k0 = k then some v0 else mapGet rest k := by
  unfold mapGet
  by_cases h : k0 = k
  · rw [List.find?_cons_of_pos _ (by simpa using h)]
    simp [h]
  · rw [List.find?_cons_of_neg _ (by simpa using h)]
    simp [h]

theorem mapGet_mapSet_self (m : List (Str × α)) (k : Str) (v : α) :
    mapGet (mapSet m k v) k = some v := by
  induction m with
  | nil => simp [mapSet, mapGet_cons]
  | cons kv rest ih =>
    cases kv with
    | mk k0 v0 =>
      by_cases h : k0 = k
      · simp [mapSet, h, mapGet_cons]
      · simpa [mapSet, h, mapGet_cons] using ih

theorem mapGet_mapSet_ne (m : List (Str × α)) {k k2 : Str} (v : α) (h : k ≠ k2) :
    mapGet (mapSet m k v) k2 = mapGet m k2 := by
  induction m with
  | nil => simp [mapSet, mapGet_cons, h, mapGet]
  | cons kv rest ih =>
    cases kv with
    | mk k0 v0 =>
      by_cases h0 : k0 = k
      · subst h0
        simp [mapSet, mapGet_cons, h]
      · by_cases h2 : k0 = k2
        · subst h2
          simp [mapSet, h0, mapGet_cons]
        · simpa [mapSet, h0, mapGet_cons, h2] using ih

theorem mapGet_mem {m : List (Str × α)} {k : Str} {v : α}
    (h : mapGet m k = some v) : (k, v) ∈ m := by
  induction m with
  | nil => simp [mapGet, List.find?] at h
  | cons kv rest ih =>
    cases kv with
    | mk k0 v0 =>
      rw [mapGet_cons] at h
      by_cases h0 : k0 = k
      · rw [if_pos h0] at h
        injection h with h2
        subst h0
        subst h2
        exact List.mem_cons_self _ _
      · rw [if_neg h0] at h
        right
        exact ih h

theorem mem_mapSet_cases {m : List (Str × α)} {k : Str} {v : α} :
    ∀ kv ∈ mapSet m k v, kv ∈ m ∨ kv = (k, v) := by
  induction m with
  | nil =>
    intro kv hkv
    simp only [mapSet, List.mem_singleton] at hkv
    right
    exact hkv
  | cons kv0 rest ih =>
    intro kv hkv
    cases kv0 with
    | mk k0 v0 =>
      by_cases h : k0 = k
      · simp only [mapSet, if_pos h] at hkv
        rcases List.mem_cons.mp hkv with h1 | h2
        · right; exact h1
        · left; exact List.mem_cons_of_mem _ h2
      · simp only [mapSet, if_neg h] at hkv
        rcases List.mem_cons.mp hkv with h1 | h2
        · left
          rw [h1]
          exact List.mem_cons_self _ _
        · rcases ih kv h2 with ha | hb
          · left; exact List.mem_cons_of_mem _ ha
          · right; exact hb

theorem keysNodup_mapSet (m : List (Str × α)) (k : Str) (v : α) (h : keysNodup m) :
    keysNodup (mapSet m k v) := by
  induction m with
  | nil => simp [mapSet, keysNodup]
  | cons kv rest ih =>
    cases kv with
    | mk k0 v0 =>
      simp only [keysNodup, List.map_cons, List.nodup_cons] at h
      by_cases h0 : k0 = k
      · subst h0
        have hms : mapSet ((k0, v0) :: rest) k0 v = (k0, v) :: rest := by
          simp [mapSet]
        rw [hms]
        simp only [keysNodup, List.map_cons, List.nodup_cons]
        exact ⟨h.1, h.2⟩
      · have hrest := ih h.2
        simp only [mapSet, if_neg h0, keysNodup, List.map_cons, List.nodup_cons]
        refine ⟨?_, hrest⟩
        intro hmem
        rcases List.mem_map.mp hmem with ⟨kv2, hkv2, hfst⟩
        rcases mem_mapSet_cases kv2 hkv2 with h1 | h2
        · exact h.1 (List.mem_map.mpr ⟨kv2, h1, hfst⟩)
        · rw [h2] at hfst
          exact h0 hfst.symm

theorem length_mapSet_le (m : List (Str × α)) (k : Str) (v : α) :
    (mapSet m k v).length ≤ m.length + 1 := by
  induction m with
  | nil => simp [mapSet]
  | cons kv rest ih =>
    cases kv with
    | mk k0 v0 =>
      by_cases h : k0 = k
      · simp [mapSet, h]
      · simp only [mapSet, if_neg h, List.length_cons]
        omega

theorem length_mapSet_present (m : List (Str × α)) (k : Str) (v w : α)
    (h : mapGet m k = some w) : (mapSet m k v).length = m.length := by
  induction m with
  | nil => simp [mapGet, List.find?] at h
  | cons kv rest ih =>
    cases kv with
    | mk k0 v0 =>
      rw [mapGet_cons] at h
      by_cases h0 : k0 = k
      · simp [mapSet, h0]
      · rw [if_neg h0] at h
        simp only [mapSet, if_neg h0, List.length_cons]
        rw [ih h]

theorem count_eq_one_of_mem_nodup {l : List Str} {a : Str} (hnd : l.Nodup) (h : a ∈ l) :
    l.count a = 1 := by
  induction l with
  | nil => simp at h
  | cons b t ih =>
    rw [List.nodup_cons] at hnd
    rcases List.mem_cons.mp h with h1 | h2
    · subst h1
      rw [List.count_cons_self, List.count_eq_zero_of_not_mem hnd.1]
    · have hba : a ≠ b := by
        intro he
        exact hnd.1 (he ▸ h2)
      rw [List.count_cons_of_ne hba]
      exact ih hnd.2 h2

theorem setAdd_ne_nil (s : List Str) (x : Str) : setAdd s x ≠ [] := by
  unfold setAdd
  split_ifs with h
  · intro hnil
    rw [hnil] at h
    simp at h
  · simp

theorem setAdd_nodup {s : List Str} (x : Str) (h : s.Nodup) : (setAdd s x).Nodup := by
  unfold setAdd
  split_ifs with hmem
  · exact h
  · rw [List.nodup_append]
    refine ⟨h, List.nodup_singleton x, ?_⟩
    intro a ha hax
    rw [List.mem_singleton] at hax
    exact hmem (hax ▸ ha)

theorem count_setAdd_not_mem {s : List Str} {x : Str} (h : x ∉ s) :
    (setAdd s x).count x = 1 := by
  unfold setAdd
  rw [if_neg h, List.count_append, List.count_eq_zero_of_not_mem h]
  simp

theorem indexAdd_get_self (idx : List (Str × List Str)) (kw t : Str) :
    mapGet (indexAdd idx kw t) kw = some (setAdd ((mapGet idx kw).getD []) t) := by
  unfold indexAdd
  cases hg : mapGet idx kw with
  | some ts => rw [mapGet_mapSet_self]; simp
  | none => rw [mapGet_mapSet_self]; simp

theorem indexAdd_get_ne (idx : List (Str × List Str)) {kw kw2 : Str} (t : Str)
    (h : kw ≠ kw2) : mapGet (indexAdd idx kw t) kw2 = mapGet idx kw2 := by
  unfold indexAdd
  cases hg : mapGet idx kw with
  | some ts => exact mapGet_mapSet_ne _ _ h
  | none => exact mapGet_mapSet_ne _ _ h

theorem foldl_indexAdd_get_not_mem (t : Str) (l : List Str) :
    ∀ (idx : List (Str × List Str)) (kw : Str), kw ∉ l →
    mapGet (l.foldl (fun i k2 => indexAdd i k2 t) idx) kw = mapGet idx kw := by
  induction l with
  | nil => intro idx kw _; rfl
  | cons k2 l2 ih =>
    intro idx kw hkw
    simp only [List.foldl_cons]
    rw [ih _ kw (fun hm => hkw (List.mem_cons_of_mem _ hm))]
    exact indexAdd_get_ne idx t
      (fun he => hkw (by rw [← he]; exact List.mem_cons_self _ _))

theorem updateSearchIndex_count (entry : MonsterCacheEntry) (idx : List (Str × List Str))
    (hnd : entry.searchKeywords.Nodup) :
    ∀ kw ∈ entry.searchKeywords,
      ∃ ts, mapGet (updateSearchIndex entry idx) kw = some ts
        ∧ ts.count entry.title = 1 := by
  intro kw hkw
  obtain ⟨l1, l2, hsplit⟩ := List.append_of_mem hkw
  have hnd2 : (l1 ++ kw :: l2).Nodup := hsplit ▸ hnd
  have hkw_l1 : kw ∉ l1 := by
    intro hm
    exact (List.disjoint_of_nodup_append hnd2) hm (List.mem_cons_self _ _)
  have hkw_l2 : kw ∉ l2 := by
    have h2 := (List.nodup_append.mp hnd2).2.1
    exact (List.nodup_cons.mp h2).1
  unfold updateSearchIndex
  rw [hsplit, List.foldl_append]
  simp only [List.foldl_cons]
  rw [foldl_indexAdd_get_not_mem _ _ _ kw hkw_l2]
  rw [indexAdd_get_self]
  rw [foldl_indexAdd_get_not_mem _ _ _ kw hkw_l1]
  refine ⟨_, rfl, ?_⟩
  apply count_setAdd_not_mem
  cases hg : mapGet (removeFromSearchIndex entry.title idx) kw with
  | none => simp
  | some ts =>
    simp only [Option.getD_some]
    exact removeFromSearchIndex_not_mem entry.title idx (kw, ts) (mapGet_mem hg)

theorem foldl_nodup_preserve {β : Type} (f : List Str → β → List Str)
    (hf : ∀ acc x, acc.Nodup → (f acc x).Nodup) (l : List β) :
    ∀ acc, acc.Nodup → (l.foldl f acc).Nodup := by
  induction l with
  | nil => intro acc h; exact h
  | cons x l2 ih =>
    intro acc h
    exact ih _ (hf acc x h)

theorem generateSearchKeywords_nodup (title : Str) :
    (generateSearchKeywords title).Nodup := by
  unfold generateSearchKeywords
  dsimp only
  apply foldl_nodup_preserve
  · intro acc w hacc
    split_ifs
    · exact foldl_nodup_preserve _ (fun a x h => setAdd_nodup _ h) _ _ hacc
    · exact hacc
  · apply foldl_nodup_preserve _ (fun a x h => setAdd_nodup _ h)
    exact setAdd_nodup _ List.nodup_nil

/-- The keyword index maps no keyword to an empty title-set. -/
def noEmptySets (s : CacheState) : Prop := ∀ kv ∈ s.searchIndex, kv.2 ≠ []

/-- The public operations of the cache service the claim quantifies over:
`setMonster`, and the (lazily-removing) reads `getMonster` / `hasMonster`. -/
inductive CacheOp where
  | set (m : OSRSMonster) (now : Nat)
  | get (title : Str) (now : Nat)
  | has (title : Str) (now : Nat)

/-- Apply one cache operation to the state. -/
def applyOp (s : CacheState) : CacheOp → CacheState
  | .set m now => setMonster m now s
  | .get title now => (getMonster title now s).2
  | .has title now => (hasMonster title now s).2

theorem removeFromSearchIndex_noEmpty (t : Str) (idx : List (Str × List Str)) :
    ∀ kv ∈ removeFromSearchIndex t idx, kv.2 ≠ [] := by
  intro kv hkv
  simp only [removeFromSearchIndex, List.mem_filterMap] at hkv
  obtain ⟨kv0, _, hf⟩ := hkv
  split_ifs at hf with he
  injection hf with hf2
  rw [← hf2]
  intro hnil
  exact he (List.isEmpty_iff.mpr hnil)

theorem indexAdd_noEmpty {idx : List (Str × List Str)}
    (hidx : ∀ kv ∈ idx, kv.2 ≠ []) (kw t : Str) :
    ∀ kv ∈ indexAdd idx kw t, kv.2 ≠ [] := by
  intro kv hkv
  unfold indexAdd at hkv
  cases hg : mapGet idx kw with
  | some ts =>
    rw [hg] at hkv
    rcases mem_mapSet_cases kv hkv with h1 | h2
    · exact hidx kv h1
    · rw [h2]
      exact setAdd_ne_nil ts t
  | none =>
    rw [hg] at hkv
    rcases mem_mapSet_cases kv hkv with h1 | h2
    · exact hidx kv h1
    · rw [h2]
      exact setAdd_ne_nil [] t

theorem foldl_indexAdd_noEmpty (t : Str) (kws : List Str) :
    ∀ idx : List (Str × List Str), (∀ kv ∈ idx, kv.2 ≠ []) →
    ∀ kv ∈ kws.foldl (fun i kw => indexAdd i kw t) idx, kv.2 ≠ [] := by
  induction kws with
  | nil => intro idx h kv hkv; exact h kv hkv
  | cons kw kws2 ih =>
    intro idx h kv hkv
    exact ih _ (indexAdd_noEmpty h kw t) kv hkv

theorem updateSearchIndex_noEmpty (entry : MonsterCacheEntry) (idx : List (Str × List Str)) :
    ∀ kv ∈ updateSearchIndex entry idx, kv.2 ≠ [] :=
  foldl_indexAdd_noEmpty entry.title entry.searchKeywords _
    (removeFromSearchIndex_noEmpty entry.title idx)

theorem foldl_deleteTitle_noEmpty (titles : List Str) :
    ∀ s : CacheState, (∀ kv ∈ s.searchIndex, kv.2 ≠ []) →
    ∀ kv ∈ (titles.foldl deleteTitle s).searchIndex, kv.2 ≠ [] := by
  induction titles with
  | nil => intro s h; exact h
  | cons t ts ih =>
    intro s h
    apply ih
    intro kv hkv
    exact removeFromSearchIndex_noEmpty t s.searchIndex kv hkv

theorem noEmptySets_setMonster (m : OSRSMonster) (now : Nat) (s : CacheState) :
    noEmptySets (setMonster m now s) := by
  unfold setMonster enforceCacheSize
  dsimp only
  split_ifs with hsz
  · intro kv hkv
    exact updateSearchIndex_noEmpty _ _ kv hkv
  · intro kv hkv
    exact foldl_deleteTitle_noEmpty _ _ (updateSearchIndex_noEmpty _ _) kv hkv

theorem noEmptySets_applyOp (s : CacheState) (op : CacheOp) (h : noEmptySets s) :
    noEmptySets (applyOp s op) := by
  cases op with
  | set m now => exact noEmptySets_setMonster m now s
  | get title now =>
    show noEmptySets (getMonster title now s).2
    unfold getMonster
    cases hg : mapGet s.cache title with
    | none => exact h
    | some e =>
      dsimp only
      split_ifs with he
      · intro kv hkv
        exact removeFromSearchIndex_noEmpty title s.searchIndex kv hkv
      · exact h
  | has title now =>
    show noEmptySets (hasMonster title now s).2
    unfold hasMonster
    cases hg : mapGet s.cache title with
    | none => exact h
    | some e =>
      dsimp only
      split_ifs with he
      · intro kv hkv
        exact removeFromSearchIndex_noEmpty title s.searchIndex kv hkv
      · exact h

theorem noEmptySets_ops (ops : List CacheOp) :
    ∀ s : CacheState, noEmptySets s → noEmptySets (ops.foldl applyOp s) := by
  induction ops with
  | nil => intro s h; exact h
  | cons op ops2 ih =>
    intro s h
    exact ih _ (noEmptySets_applyOp s op h)

theorem setMonster_small (m : OSRSMonster) (now : Nat) (s : CacheState)
    (h : (mapSet s.cache m.title (mkEntry m now)).length ≤ MAX_CACHE_SIZE) :
    setMonster m now s =
      { cache := mapSet s.cache m.title (mkEntry m now)
        searchIndex := updateSearchIndex (mkEntry m now) s.searchIndex
        stats := { s.stats with
          totalMonsters := (mapSet s.cache m.title (mkEntry m now)).length
          lastRefresh := now }
        searchMetrics := s.searchMetrics } := by
  unfold setMonster enforceCacheSize updateStats
  dsimp only
  rw [if_pos h]

/-- C8: calling `setMonster` twice with the same monster yields exactly one
cache entry for its title and exactly one membership of the title in each of
its keywords' title-sets; and no sequence of `setMonster` / `getMonster` /
`hasMonster` operations (the reads remove lazily) can make any keyword map to
an empty title-set. -/
theorem idempotent_put_no_empty_sets (m : OSRSMonster) (now1 now2 : Nat) (s : CacheState)
    (hnd : keysNodup s.cache) (hsz : s.cache.length < MAX_CACHE_SIZE) :
    (((setMonster m now2 (setMonster m now1 s)).cache.map Prod.fst).count m.title = 1)
    ∧ (∀ kw ∈ generateSearchKeywords m.title,
        ∃ ts, mapGet (setMonster m now2 (setMonster m now1 s)).searchIndex kw = some ts
          ∧ ts.count m.title = 1)
    ∧ (∀ ops : List CacheOp, noEmptySets s → noEmptySets (ops.foldl applyOp s)) := by
  have h1len : (mapSet s.cache m.title (mkEntry m now1)).length ≤ MAX_CACHE_SIZE :=
    le_trans (length_mapSet_le _ _ _) (by omega)
  have hs1 := setMonster_small m now1 s h1len
  have hs1cache : (setMonster m now1 s).cache = mapSet s.cache m.title (mkEntry m now1) := by
    rw [hs1]
  have hs1idx : (setMonster m now1 s).searchIndex
      = updateSearchIndex (mkEntry m now1) s.searchIndex := by
    rw [hs1]
  have h2len : (mapSet (setMonster m now1 s).cache m.title (mkEntry m now2)).length
      ≤ MAX_CACHE_SIZE := by
    rw [hs1cache,
      length_mapSet_present _ _ _ _ (mapGet_mapSet_self s.cache m.title (mkEntry m now1))]
    exact h1len
  have hs2 := setMonster_small m now2 (setMonster m now1 s) h2len
  refine ⟨?_, ?_, ?_⟩
  · rw [hs2]
    dsimp only
    rw [hs1cache]
    have hnd1 : keysNodup (mapSet s.cache m.title (mkEntry m now1)) :=
      keysNodup_mapSet _ _ _ hnd
    have hnd2 : keysNodup
        (mapSet (mapSet s.cache m.title (mkEntry m now1)) m.title (mkEntry m now2)) :=
      keysNodup_mapSet _ _ _ hnd1
    apply count_eq_one_of_mem_nodup hnd2
    exact List.mem_map.mpr
      ⟨(m.title, mkEntry m now2), mapGet_mem (mapGet_mapSet_self _ _ _), rfl⟩
  · intro kw hkw
    rw [hs2]
    dsimp only
    exact updateSearchIndex_count (mkEntry m now2) (setMonster m now1 s).searchIndex
      (generateSearchKeywords_nodup m.title) kw hkw
  · exact fun ops h0 => noEmptySets_ops ops s h0

/-- C8 witness. -/
theorem idempotent_put_no_empty_sets_witness :
    keysNodup (([] : List (Str × MonsterCacheEntry)))
    ∧ (((setMonster ⟨"Goblin".toList, "u".toList, none, none, [], none, none⟩ 1
          (setMonster ⟨"Goblin".toList, "u".toList, none, none, [], none, none⟩ 0
            ⟨[], [], ⟨0, 0, 0, 0⟩, ⟨0, 0, 0, 0⟩⟩)).cache.map Prod.fst).count
        ("Goblin".toList) = 1) :=
  ⟨by decide,
   (idempotent_put_no_empty_sets ⟨"Goblin".toList, "u".toList, none, none, [], none, none⟩
     0 1 ⟨[], [], ⟨0, 0, 0, 0⟩, ⟨0, 0, 0, 0⟩⟩ (by decide) (by decide)).1⟩

theorem foldl_deleteTitle_cache (titles : List Str) :
    ∀ s : CacheState, (titles.foldl deleteTitle s).cache
      = s.cache.filter (fun kv => decide (kv.1 ∉ titles)) := by
  induction titles with
  | nil =>
    intro s
    simp
  | cons t ts ih =>
    intro s
    rw [List.foldl_cons, ih]
    show (mapDelete s.cache t).filter _ = _
    unfold mapDelete
    rw [List.filter_filter]
    congr 1
    funext kv
    simp only [List.mem_cons, not_or, decide_not, Bool.and_comm]
    simp [Bool.decide_and]

theorem removeFromSearchIndex_preserves_absent {t : Str} (t2 : Str)
    (idx : List (Str × List Str)) (h : ∀ kv ∈ idx, t ∉ kv.2) :
    ∀ kv ∈ removeFromSearchIndex t2 idx, t ∉ kv.2 := by
  intro kv hkv
  simp only [removeFromSearchIndex, List.mem_filterMap] at hkv
  obtain ⟨kv0, hkv0, hf⟩ := hkv
  split_ifs at hf with he
  injection hf with hf2
  rw [← hf2]
  intro hmem
  exact h kv0 hkv0 (List.mem_of_mem_filter hmem)

theorem foldl_deleteTitle_preserves_absent (titles : List Str) {t : Str} :
    ∀ s : CacheState, (∀ kv ∈ s.searchIndex, t ∉ kv.2) →
    ∀ kv ∈ (titles.foldl deleteTitle s).searchIndex, t ∉ kv.2 := by
  induction titles with
  | nil => intro s h; exact h
  | cons t2 ts ih =>
    intro s h
    exact ih _ (removeFromSearchIndex_preserves_absent t2 s.searchIndex h)

theorem foldl_deleteTitle_purged (titles : List Str) :
    ∀ s : CacheState, ∀ t ∈ titles,
    ∀ kv ∈ (titles.foldl deleteTitle s).searchIndex, t ∉ kv.2 := by
  induction titles with
  | nil => intro s t ht; simp at ht
  | cons t0 ts ih =>
    intro s t ht
    rcases List.mem_cons.mp ht with h1 | h2
    · subst h1
      rw [List.foldl_cons]
      exact foldl_deleteTitle_preserves_absent ts _
        (removeFromSearchIndex_not_mem t s.searchIndex)
    · rw [List.foldl_cons]
      exact ih _ t h2

theorem enforceCacheSize_spec (now : Nat) (s : CacheState) (hnd : keysNodup s.cache)
    (hgt : MAX_CACHE_SIZE < s.cache.length) :
    (enforceCacheSize now s).cache.length = MAX_CACHE_SIZE
    ∧ (∀ kv ∈ s.cache, kv ∉ (enforceCacheSize now s).cache →
        (∀ kv2 ∈ (enforceCacheSize now s).cache, kv.2.lastUpdated ≤ kv2.2.lastUpdated)
        ∧ (∀ kv3 ∈ (enforceCacheSize now s).searchIndex, kv.1 ∉ kv3.2))
    ∧ (∀ kv2 ∈ (enforceCacheSize now s).cache, kv2 ∈ s.cache) := by
  have hsorted := List.sorted_insertionSort lastUpdatedLe s.cache
  have hperm := List.perm_insertionSort lastUpdatedLe s.cache
  set sorted := List.insertionSort lastUpdatedLe s.cache with hsorteq
  set k := s.cache.length - MAX_CACHE_SIZE with hk
  set rkeys := (sorted.take k).map Prod.fst with hrkeys
  have hpost : (enforceCacheSize now s).cache
      = s.cache.filter (fun kv => decide (kv.1 ∉ rkeys)) := by
    unfold enforceCacheSize
    rw [if_neg (by omega)]
    show ((rkeys.foldl deleteTitle s).cache) = _
    exact foldl_deleteTitle_cache rkeys s
  have hpostidx : (enforceCacheSize now s).searchIndex
      = (rkeys.foldl deleteTitle s).searchIndex := by
    unfold enforceCacheSize
    rw [if_neg (by omega)]
    rfl
  have hndsorted : keysNodup sorted := (List.Perm.nodup_iff (hperm.map Prod.fst)).mpr hnd
  have hndsplit : ((sorted.take k).map Prod.fst ++ (sorted.drop k).map Prod.fst).Nodup := by
    rw [← List.map_append, List.take_append_drop]
    exact hndsorted
  have hdisj := List.disjoint_of_nodup_append hndsplit
  have hdropkeys : ∀ kv ∈ sorted.drop k, kv.1 ∉ rkeys := by
    intro kv hkv hmem
    exact hdisj hmem (List.mem_map.mpr ⟨kv, hkv, rfl⟩)
  have htakekeys : ∀ kv ∈ sorted.take k, kv.1 ∈ rkeys := by
    intro kv hkv
    exact List.mem_map.mpr ⟨kv, hkv, rfl⟩
  have hfiltdrop : (sorted.drop k).filter (fun kv => decide (kv.1 ∉ rkeys)) = sorted.drop k := by
    rw [List.filter_eq_self]
    intro kv hkv
    simpa using hdropkeys kv hkv
  have hfilttake : (sorted.take k).filter (fun kv => decide (kv.1 ∉ rkeys)) = [] := by
    rw [List.filter_eq_nil_iff]
    intro kv hkv
    simpa using htakekeys kv hkv
  have hpermpost : (enforceCacheSize now s).cache.Perm (sorted.drop k) := by
    rw [hpost]
    have h1 : (s.cache.filter (fun kv => decide (kv.1 ∉ rkeys))).Perm
        (sorted.filter (fun kv => decide (kv.1 ∉ rkeys))) := (hperm.filter _).symm
    have h2 : sorted.filter (fun kv => decide (kv.1 ∉ rkeys)) = sorted.drop k := by
      conv_lhs => rw [← List.take_append_drop k sorted]
      rw [List.filter_append, hfilttake, hfiltdrop, List.nil_append]
    rw [h2] at h1
    exact h1
  have hmem_take : ∀ kv ∈ s.cache, kv ∉ (enforceCacheSize now s).cache → kv ∈ sorted.take k := by
    intro kv hkv hnot
    have h1 : kv ∈ sorted := hperm.symm.subset hkv
    have h2 : kv ∈ sorted.take k ++ sorted.drop k := by
      rw [List.take_append_drop]
      exact h1
    rcases List.mem_append.mp h2 with h3 | h4
    · exact h3
    · exact absurd (hpermpost.symm.subset h4) hnot
  have hpairs : ∀ a ∈ sorted.take k, ∀ b ∈ sorted.drop k, lastUpdatedLe a b := by
    have h1 : List.Pairwise lastUpdatedLe (sorted.take k ++ sorted.drop k) := by
      rw [List.take_append_drop]
      exact hsorted
    exact (List.pairwise_append.mp h1).2.2
  refine ⟨?_, ?_, ?_⟩
  · have hlen := hpermpost.length_eq
    rw [List.length_drop] at hlen
    have hslen := hperm.length_eq
    omega
  · intro kv hkv hnot
    have htk := hmem_take kv hkv hnot
    constructor
    · intro kv2 hkv2
      exact hpairs kv htk kv2 (hpermpost.subset hkv2)
    · intro kv3 hkv3
      rw [hpostidx] at hkv3
      exact foldl_deleteTitle_purged rkeys s kv.1 (htakekeys kv htk) kv3 hkv3
  · intro kv2 hkv2
    rw [hpost] at hkv2
    exact List.mem_of_mem_filter hkv2

theorem enforceCacheSize_of_le (now : Nat) (s : CacheState)
    (h : s.cache.length ≤ MAX_CACHE_SIZE) : enforceCacheSize now s = s := by
  unfold enforceCacheSize
  rw [if_pos h]

/-- C4: after every `setMonster` the store holds at most `MAX_CACHE_SIZE`
(1000) entries; whenever the put pushes the count above the limit, exactly
`MAX_CACHE_SIZE` entries remain, every evicted entry's `lastUpdated` is no
larger than any survivor's (the oldest-by-`lastUpdated` entries are evicted),
and every evicted title is purged from every keyword's title-set.  Inserting
`MAX+1` distinct titles is the instance where the post-put table has
`MAX+1` entries, so exactly `MAX` remain and the evicted one is the oldest. -/
theorem capacity_eviction_spec (m : OSRSMonster) (now : Nat) (s : CacheState)
    (hnd : keysNodup s.cache) :
    ((setMonster m now s).cache.length ≤ MAX_CACHE_SIZE)
    ∧ (MAX_CACHE_SIZE < (mapSet s.cache m.title (mkEntry m now)).length →
        (setMonster m now s).cache.length = MAX_CACHE_SIZE
        ∧ (∀ kv ∈ mapSet s.cache m.title (mkEntry m now),
            kv ∉ (setMonster m now s).cache →
            (∀ kv2 ∈ (setMonster m now s).cache, kv.2.lastUpdated ≤ kv2.2.lastUpdated)
            ∧ (∀ kv3 ∈ (setMonster m now s).searchIndex, kv.1 ∉ kv3.2))) := by
  have hnd1 : keysNodup (mapSet s.cache m.title (mkEntry m now)) :=
    keysNodup_mapSet _ _ _ hnd
  by_cases hle : (mapSet s.cache m.title (mkEntry m now)).length ≤ MAX_CACHE_SIZE
  · constructor
    · rw [setMonster_small m now s hle]
      exact hle
    · intro hgt
      omega
  · have hgt : MAX_CACHE_SIZE < (mapSet s.cache m.title (mkEntry m now)).length := by omega
    have hspec := enforceCacheSize_spec now
      (updateStats now { s with cache := mapSet s.cache m.title (mkEntry m now)
                                searchIndex := updateSearchIndex (mkEntry m now) s.searchIndex })
      (by exact hnd1) (by exact hgt)
    have hsm : setMonster m now s = enforceCacheSize now
        (updateStats now { s with cache := mapSet s.cache m.title (mkEntry m now)
                                  searchIndex := updateSearchIndex (mkEntry m now) s.searchIndex }) :=
      rfl
    rw [hsm]
    refine ⟨le_of_eq hspec.1, fun _ => ⟨hspec.1, ?_⟩⟩
    intro kv hkv hnot
    exact hspec.2.1 kv (by exact hkv) hnot

/-- C4 witness. -/
theorem capacity_eviction_spec_witness :
    keysNodup (([] : List (Str × MonsterCacheEntry)))
    ∧ (setMonster ⟨"Goblin".toList, "u".toList, none, none, [], none, none⟩ 0
        ⟨[], [], ⟨0, 0, 0, 0⟩, ⟨0, 0, 0, 0⟩⟩).cache.length ≤ MAX_CACHE_SIZE :=
  ⟨by decide,
   (capacity_eviction_spec ⟨"Goblin".toList, "u".toList, none, none, [], none, none⟩ 0
     ⟨[], [], ⟨0, 0, 0, 0⟩, ⟨0, 0, 0, 0⟩⟩ (by decide)).1⟩

instance : IsTotal ScoredEntry rankLe := ⟨by
  intro a b
  unfold rankLe
  rcases Nat.lt_trichotomy a.score b.score with h | h | h
  · right; left; exact h
  · rcases Nat.lt_trichotomy a.title.length b.title.length with h2 | h2 | h2
    · left; right; exact ⟨h, Or.inl h2⟩
    · rcases le_total a.title b.title with h3 | h3
      · left; right; exact ⟨h, Or.inr ⟨h2, h3⟩⟩
      · right; right; exact ⟨h.symm, Or.inr ⟨h2.symm, h3⟩⟩
    · right; right; exact ⟨h.symm, Or.inl h2⟩
  · left; left; exact h⟩

instance : IsTrans ScoredEntry rankLe := ⟨by
  intro a b c hab hbc
  unfold rankLe at *
  rcases hab with h1 | ⟨h1, h2⟩
  · rcases hbc with h3 | ⟨h3, h4⟩
    · left; omega
    · left; omega
  · rcases hbc with h3 | ⟨h3, h4⟩
    · left; omega
    · right
      refine ⟨by omega, ?_⟩
      rcases h2 with h5 | ⟨h5, h6⟩
      · rcases h4 with h7 | ⟨h7, h8⟩
        · left; omega
        · left; omega
      · rcases h4 with h7 | ⟨h7, h8⟩
        · left; omega
        · right; exact ⟨by omega, le_trans h6 h8⟩⟩

/-- The claim's per-keyword tier points: 100 for an exact keyword match, 50
for a same-length prefix match, 25 for a strict prefix match, 10 for a
non-prefix substring match while fewer than `limit * 2` distinct candidates
have been accumulated, 0 otherwise. -/
def specTierPoints (ql : Str) (limit : Nat) (candCount : Nat) (keyword : Str) : Nat :=
  if keyword = ql then 100
  else if ql.isPrefixOf keyword = true ∧ keyword.length = ql.length then 50
  else if ql.isPrefixOf keyword = true then 25
  else if strContains keyword ql = true ∧ candCount < limit * 2 then 10
  else 0

/-- Whether a keyword visit registers its live titles as candidates. -/
def specKeywordHits (ql : Str) (limit : Nat) (candCount : Nat) (keyword : Str) : Prop :=
  keyword = ql ∨ ql.isPrefixOf keyword = true
    ∨ (candCount < limit * 2 ∧ strContains keyword ql = true)

instance specKeywordHits.dec (ql : Str) (limit : Nat) (candCount : Nat) (keyword : Str) :
    Decidable (specKeywordHits ql limit candCount keyword) := by
  unfold specKeywordHits
  infer_instance

/-- The candidates one keyword's title-set contributes: its live titles. -/
def specAddCands (cache : List (Str × MonsterCacheEntry)) (now : Nat)
    (cands : List Str) (ts : List Str) : List Str :=
  ts.foldl (fun p x => if isLive cache now x then setAdd p x else p) cands

/-- The distinct candidates accumulated while walking the index in order. -/
def specCandsAux (cache : List (Str × MonsterCacheEntry)) (now : Nat) (ql : Str) (limit : Nat) :
    List (Str × List Str) → List Str → List Str
  | [], cands => cands
  | kv :: rest, cands =>
    specCandsAux cache now ql limit rest
      (if specKeywordHits ql limit cands.length kv.1 then specAddCands cache now cands kv.2
       else cands)

/-- The claim's score for title `t`: the sum, over the keywords of the index
in visit order (threading the accumulated distinct-candidate count), of the
tier points of each keyword whose title-set contains `t`, provided `t`'s
entry is live. -/
def specScoreAux (cache : List (Str × MonsterCacheEntry)) (now : Nat) (ql : Str) (limit : Nat)
    (t : Str) : List (Str × List Str) → List Str → Nat
  | [], _ => 0
  | kv :: rest, cands =>
    (if t ∈ kv.2 ∧ isLive cache now t = true then specTierPoints ql limit cands.length kv.1
     else 0)
    + specScoreAux cache now ql limit t rest
        (if specKeywordHits ql limit cands.length kv.1 then specAddCands cache now cands kv.2
         else cands)

def specCands (cache : List (Str × MonsterCacheEntry)) (now : Nat) (ql : Str) (limit : Nat)
    (idx : List (Str × List Str)) : List Str :=
  specCandsAux cache now ql limit idx []

def specScore (cache : List (Str × MonsterCacheEntry)) (now : Nat) (ql : Str) (limit : Nat)
    (t : Str) (idx : List (Str × List Str)) : Nat :=
  specScoreAux cache now ql limit t idx []

/-- The accumulated score of a candidate in the `matchScores` map. -/
def getScore (ms : List (Str × Nat)) (t : Str) : Nat := (mapGet ms t).getD 0

/-- The claim's surviving candidates with their spec scores and entries. -/
def specSurvivors (cache : List (Str × MonsterCacheEntry)) (now : Nat) (ql : Str)
    (limit : Nat) (idx : List (Str × List Str)) : List ScoredEntry :=
  (specCands cache now ql limit idx).filterMap (fun t =>
    match mapGet cache t with
    | some e =>
      if isExpired now e then none
      else some ⟨t, e, specScore cache now ql limit t idx⟩
    | none => none)

theorem scoreAddAll_spec (cache : List (Str × MonsterCacheEntry)) (now : Nat) (pts : Nat) :
    ∀ (ts : List Str), ts.Nodup → ∀ (pm : List Str) (ms : List (Str × Nat)),
      (scoreAddAll cache now pts ts (pm, ms)).1 = specAddCands cache now pm ts
      ∧ (∀ t, getScore (scoreAddAll cache now pts ts (pm, ms)).2 t
          = getScore ms t + (if t ∈ ts ∧ isLive cache now t = true then pts else 0)) := by
  intro ts
  induction ts with
  | nil =>
    intro _ pm ms
    exact ⟨rfl, fun t => by simp [scoreAddAll, specAddCands, getScore]⟩
  | cons x ts2 ih =>
    intro hnd pm ms
    rw [List.nodup_cons] at hnd
    by_cases hlive : isLive cache now x = true
    · have hstep : scoreAddAll cache now pts (x :: ts2) (pm, ms)
          = scoreAddAll cache now pts ts2
              (setAdd pm x, mapSet ms x (getScore ms x + pts)) := by
        simp [scoreAddAll, List.foldl_cons, hlive, getScore]
      have hstep2 : specAddCands cache now pm (x :: ts2)
          = specAddCands cache now (setAdd pm x) ts2 := by
        simp [specAddCands, List.foldl_cons, hlive]
      obtain ⟨ih1, ih2⟩ := ih hnd.2 (setAdd pm x) (mapSet ms x (getScore ms x + pts))
      rw [hstep, hstep2]
      refine ⟨ih1, ?_⟩
      intro t
      rw [ih2 t]
      by_cases hxt : t = x
      · subst hxt
        have hg : getScore (mapSet ms t (getScore ms t + pts)) t = getScore ms t + pts := by
          simp [getScore, mapGet_mapSet_self]
        rw [hg]
        have hnotm : ¬(t ∈ ts2 ∧ isLive cache now t = true) := fun hc => hnd.1 hc.1
        rw [if_neg hnotm, if_pos ⟨List.mem_cons_self _ _, hlive⟩]
        omega
      · have hg : getScore (mapSet ms x (getScore ms x + pts)) t = getScore ms t := by
          simp [getScore, mapGet_mapSet_ne ms _ (fun he => hxt he.symm)]
        rw [hg]
        have hmemiff : (t ∈ x :: ts2 ∧ isLive cache now t = true)
            ↔ (t ∈ ts2 ∧ isLive cache now t = true) := by
          constructor
          · rintro ⟨hm, hl⟩
            rcases List.mem_cons.mp hm with hm1 | hm2
            · exact absurd hm1 hxt
            · exact ⟨hm2, hl⟩
          · rintro ⟨hm, hl⟩
            exact ⟨List.mem_cons_of_mem _ hm, hl⟩
        by_cases hc : t ∈ ts2 ∧ isLive cache now t = true
        · rw [if_pos hc, if_pos (hmemiff.mpr hc)]
        · rw [if_neg hc, if_neg (fun hcc => hc (hmemiff.mp hcc))]
    · have hstep : scoreAddAll cache now pts (x :: ts2) (pm, ms)
          = scoreAddAll cache now pts ts2 (pm, ms) := by
        simp [scoreAddAll, List.foldl_cons, hlive]
      have hstep2 : specAddCands cache now pm (x :: ts2) = specAddCands cache now pm ts2 := by
        simp [specAddCands, List.foldl_cons, hlive]
      obtain ⟨ih1, ih2⟩ := ih hnd.2 pm ms
      rw [hstep, hstep2]
      refine ⟨ih1, ?_⟩
      intro t
      rw [ih2 t]
      congr 1
      by_cases hc : t ∈ ts2 ∧ isLive cache now t = true
      · rw [if_pos hc, if_pos ⟨List.mem_cons_of_mem _ hc.1, hc.2⟩]
      · rw [if_neg hc, if_neg ?_]
        rintro ⟨hm, hl⟩
        rcases List.mem_cons.mp hm with hm1 | hm2
        · rw [hm1] at hl
          exact hlive hl
        · exact hc ⟨hm2, hl⟩

theorem scorePass_spec (cache : List (Str × MonsterCacheEntry)) (now : Nat) (ql : Str)
    (limit : Nat) :
    ∀ (idx : List (Str × List Str)), (∀ kv ∈ idx, kv.2.Nodup) →
    ∀ (pm : List Str) (ms : List (Str × Nat)),
      (idx.foldl (scoreStep cache now ql limit) (pm, ms)).1
        = specCandsAux cache now ql limit idx pm
      ∧ (∀ t, getScore (idx.foldl (scoreStep cache now ql limit) (pm, ms)).2 t
          = getScore ms t + specScoreAux cache now ql limit t idx pm) := by
  intro idx
  induction idx with
  | nil =>
    intro _ pm ms
    exact ⟨rfl, fun t => by simp [specScoreAux, specCandsAux]⟩
  | cons kv rest ih =>
    intro hnd pm ms
    have hkv : kv.2.Nodup := hnd kv (List.mem_cons_self _ _)
    have hrest : ∀ kv2 ∈ rest, kv2.2.Nodup :=
      fun kv2 hm => hnd kv2 (List.mem_cons_of_mem _ hm)
    rw [List.foldl_cons]
    have main : ∀ pts : Nat,
        scoreStep cache now ql limit (pm, ms) kv = scoreAddAll cache now pts kv.2 (pm, ms) →
        specKeywordHits ql limit pm.length kv.1 →
        specTierPoints ql limit pm.length kv.1 = pts →
        ((rest.foldl (scoreStep cache now ql limit)
            (scoreStep cache now ql limit (pm, ms) kv)).1
          = specCandsAux cache now ql limit (kv :: rest) pm
        ∧ ∀ t, getScore (rest.foldl (scoreStep cache now ql limit)
            (scoreStep cache now ql limit (pm, ms) kv)).2 t
          = getScore ms t + specScoreAux cache now ql limit t (kv :: rest) pm) := by
      intro pts hstep hhits htier
      obtain ⟨ha1, ha2⟩ := scoreAddAll_spec cache now pts kv.2 hkv pm ms
      rw [hstep]
      obtain ⟨hi1, hi2⟩ := ih hrest (scoreAddAll cache now pts kv.2 (pm, ms)).1
        (scoreAddAll cache now pts kv.2 (pm, ms)).2
      constructor
      · have hr : (rest.foldl (scoreStep cache now ql limit)
            (scoreAddAll cache now pts kv.2 (pm, ms))).1
            = specCandsAux cache now ql limit rest
                (scoreAddAll cache now pts kv.2 (pm, ms)).1 := hi1
        rw [hr, ha1]
        simp only [specCandsAux]
        rw [if_pos hhits]
      · intro t
        have hr : getScore (rest.foldl (scoreStep cache now ql limit)
            (scoreAddAll cache now pts kv.2 (pm, ms))).2 t
            = getScore (scoreAddAll cache now pts kv.2 (pm, ms)).2 t
              + specScoreAux cache now ql limit t rest
                  (scoreAddAll cache now pts kv.2 (pm, ms)).1 := hi2 t
        rw [hr, ha2 t, ha1]
        simp only [specScoreAux]
        rw [if_pos hhits, htier]
        omega
    by_cases h1 : kv.1 = ql
    · exact main 100 (by simp [scoreStep, h1]) (Or.inl h1) (by simp [specTierPoints, h1])
    · by_cases h2 : ql.isPrefixOf kv.1 = true
      · refine main (if kv.1.length = ql.length then 50 else 25)
          (by simp [scoreStep, h1, h2]) (Or.inr (Or.inl h2)) ?_
        by_cases h3 : kv.1.length = ql.length
        · simp [specTierPoints, h1, h2, h3]
        · simp [specTierPoints, h1, h2, h3]
      · by_cases h3 : pm.length < limit * 2 ∧ strContains kv.1 ql = true
        · exact main 10 (by simp [scoreStep, h1, h2, h3]) (Or.inr (Or.inr ⟨h3.1, h3.2⟩))
            (by simp [specTierPoints, h1, h2, h3.1, h3.2])
        · have hstep : scoreStep cache now ql limit (pm, ms) kv = (pm, ms) := by
            simp [scoreStep, h1, h2, h3]
          have hhits : ¬ specKeywordHits ql limit pm.length kv.1 := by
            unfold specKeywordHits
            rintro (hA | hB | hC)
            · exact h1 hA
            · exact h2 hB
            · exact h3 ⟨hC.1, hC.2⟩
          have htier : specTierPoints ql limit pm.length kv.1 = 0 := by
            simp only [specTierPoints]
            rw [if_neg h1, if_neg (fun hc => h2 hc.1), if_neg h2,
              if_neg (fun hc => h3 ⟨hc.2, hc.1⟩)]
          rw [hstep]
          obtain ⟨hi1, hi2⟩ := ih hrest pm ms
          constructor
          · rw [hi1]
            simp only [specCandsAux]
            rw [if_neg hhits]
          · intro t
            rw [hi2 t]
            simp only [specScoreAux]
            rw [if_neg hhits, htier]
            simp

/-- C1: for a non-trivial query, the single scoring pass of `searchMonsters`
assigns every candidate title exactly the claim's score — the sum, over the
keywords of the index whose title-set contains it and whose entry is live,
of 100 for an exact match, 50 for a same-length prefix match, else 25 for a
strict prefix match, else 10 for a non-prefix substring match while fewer
than `limit * 2` distinct candidates had been accumulated when the keyword
was visited; the candidate set is the claim's candidate set; and the
returned results are the surviving candidates ordered by score descending,
then title length ascending, then title ascending, truncated to `limit`. -/
theorem search_scoring_spec (query : Str) (limit : Nat) (now : Nat) (elapsed : ℚ)
    (s : CacheState) (hq : (strTrim query).isEmpty = false)
    (hsets : ∀ kv ∈ (cleanExpiredEntries now s).searchIndex, kv.2.Nodup) :
    (∀ t, getScore ((cleanExpiredEntries now s).searchIndex.foldl
        (scoreStep (cleanExpiredEntries now s).cache now (strLower query) limit)
        ([], [])).2 t
      = specScore (cleanExpiredEntries now s).cache now (strLower query) limit t
          (cleanExpiredEntries now s).searchIndex)
    ∧ ((cleanExpiredEntries now s).searchIndex.foldl
        (scoreStep (cleanExpiredEntries now s).cache now (strLower query) limit)
        ([], [])).1
      = specCands (cleanExpiredEntries now s).cache now (strLower query) limit
          (cleanExpiredEntries now s).searchIndex
    ∧ (searchMonsters query limit now elapsed s).1.results
      = ((List.insertionSort rankLe (specSurvivors (cleanExpiredEntries now s).cache now
          (strLower query) limit (cleanExpiredEntries now s).searchIndex)).take limit).map
            (·.monster)
    ∧ List.Sorted rankLe (List.insertionSort rankLe (specSurvivors
        (cleanExpiredEntries now s).cache now (strLower query) limit
        (cleanExpiredEntries now s).searchIndex)) := by
  set s1 := cleanExpiredEntries now s with hs1
  set ql := strLower query with hql
  obtain ⟨hpass1, hpass2⟩ :=
    scorePass_spec s1.cache now ql limit s1.searchIndex hsets [] []
  have hscore : ∀ t, getScore (s1.searchIndex.foldl
      (scoreStep s1.cache now ql limit) ([], [])).2 t
      = specScore s1.cache now ql limit t s1.searchIndex := by
    intro t
    rw [hpass2 t]
    simp [getScore, mapGet, specScore]
  have hsurv : searchSurvivors s1.cache now
      (s1.searchIndex.foldl (scoreStep s1.cache now ql limit) ([], [])).1
      (s1.searchIndex.foldl (scoreStep s1.cache now ql limit) ([], [])).2
      = specSurvivors s1.cache now ql limit s1.searchIndex := by
    unfold searchSurvivors specSurvivors
    rw [hpass1]
    show List.filterMap _ (specCands s1.cache now ql limit s1.searchIndex) = _
    congr 1
    funext t
    have hX : (mapGet (s1.searchIndex.foldl
        (scoreStep s1.cache now ql limit) ([], [])).2 t).getD 0
        = specScore s1.cache now ql limit t s1.searchIndex := hscore t
    cases hm : mapGet s1.cache t with
    | none => rfl
    | some e =>
      rw [hX]
  refine ⟨hscore, by rw [hpass1]; rfl, ?_, List.sorted_insertionSort rankLe _⟩
  unfold searchMonsters
  simp only [hq, Bool.false_eq_true, if_false]
  rw [← hs1, ← hql, hsurv]
  split
  next hempty =>
    exact (List.isEmpty_iff.mp hempty).symm
  next hempty => rfl

/-- C1 witness. -/
theorem search_scoring_spec_witness :
    (strTrim ("gob".toList)).isEmpty = false
    ∧ ((cleanExpiredEntries 5
        ⟨[("Goblin".toList, ⟨"Goblin".toList, "u".toList, none, none, [], none, none, 0, 10,
          ["goblin".toList, "gob".toList]⟩)],
          [("goblin".toList, ["Goblin".toList]), ("gob".toList, ["Goblin".toList])],
          ⟨1, 0, 0, 0⟩, ⟨0, 0, 0, 0⟩⟩).searchIndex.foldl
        (scoreStep (cleanExpiredEntries 5
          ⟨[("Goblin".toList, ⟨"Goblin".toList, "u".toList, none, none, [], none, none, 0, 10,
            ["goblin".toList, "gob".toList]⟩)],
            [("goblin".toList, ["Goblin".toList]), ("gob".toList, ["Goblin".toList])],
            ⟨1, 0, 0, 0⟩, ⟨0, 0, 0, 0⟩⟩).cache 5 (strLower ("gob".toList)) 10)
        ([], [])).1
      = specCands (cleanExpiredEntries 5
          ⟨[("Goblin".toList, ⟨"Goblin".toList, "u".toList, none, none, [], none, none, 0, 10,
            ["goblin".toList, "gob".toList]⟩)],
            [("goblin".toList, ["Goblin".toList]), ("gob".toList, ["Goblin".toList])],
            ⟨1, 0, 0, 0⟩, ⟨0, 0, 0, 0⟩⟩).cache 5 (strLower ("gob".toList)) 10
          (cleanExpiredEntries 5
          ⟨[("Goblin".toList, ⟨"Goblin".toList, "u".toList, none, none, [], none, none, 0, 10,
            ["goblin".toList, "gob".toList]⟩)],
            [("goblin".toList, ["Goblin".toList]), ("gob".toList, ["Goblin".toList])],
            ⟨1, 0, 0, 0⟩, ⟨0, 0, 0, 0⟩⟩).searchIndex :=
  ⟨by decide,
   (search_scoring_spec ("gob".toList) 10 5 0
     ⟨[("Goblin".toList, ⟨"Goblin".toList, "u".toList, none, none, [], none, none, 0, 10,
       ["goblin".toList, "gob".toList]⟩)],
       [("goblin".toList, ["Goblin".toList]), ("gob".toList, ["Goblin".toList])],
       ⟨1, 0, 0, 0⟩, ⟨0, 0, 0, 0⟩⟩ (by decide) (by decide)).2.1⟩
